import Mathlib

/-!
Verification of `generar_trivia.py` (CulturIA): a daily trivia generator
that builds a prompt from a JSON history file, calls an external language
model, validates the model's JSON answer and prepends a new day record to
the history.

The Python script is shallowly embedded:
* JSON documents are the inductive `JValue`; `json.loads` is modelled by
  the executable fueled parser `jsonLoads` (integers only — no floating
  point literals, and `\u` escapes are not modelled; Python dict semantics
  for duplicate keys, last value at first position, via `objInsert`).
* Python's dynamically-typed operations used by the script (`in`, `len`,
  indexing, iteration, `dict.get`, `isinstance(_, int)` — which is true
  for booleans in Python) are modelled by `pyContains`, `pyLen`,
  `pyGetItem`, `pyElems`, `pyDictGet`, `pyIsInt`; exceptions by `PyErr`
  inside `Except`.
* The history file is `FileState`: `missing` (no file) or `file t`
  (present with text `t`). `json.dump(..., ensure_ascii=False, indent=2)`
  is the executable serializer `dumpVal` (so `save_historial` stores the
  serialized characters), `json.load` parses the stored text with
  `jsonLoads`, and the round trip is proved (`parseVal_dump`), not
  assumed.
* The external pieces (the Groq client, the clock, the API key) are inputs:
  `raw_text` is the model's response, `fecha_hoy` is
  `datetime.now(MADRID_TZ).strftime("%Y-%m-%d")`, `api_key` is the
  environment variable.
-/

/-- Whitespace as both `str.strip` (on the script's ASCII data) and the JSON
lexer treat it. -/
def isWsChar (c : Char) : Bool :=
  c == ' ' || c == '\t' || c == '\n' || c == '\r'

/-- Leading whitespace removed (JSON token skipping). -/
def skipWs (l : List Char) : List Char :=
  l.dropWhile isWsChar

/-- Python `str.strip()`: whitespace removed from both ends. -/
def stripChars (l : List Char) : List Char :=
  ((l.dropWhile isWsChar).reverse.dropWhile isWsChar).reverse

/-- Python `str.split("\n")`: pieces between the newlines; never empty. -/
def splitNlChars : List Char → List (List Char)
  | [] => [[]]
  | c :: rest =>
    let ls := splitNlChars rest
    if c = '\n' then [] :: ls
    else
      match ls with
      | [] => [[c]]
      | h :: t => (c :: h) :: t

/-- Python `"\n".join`. -/
def joinNlChars : List (List Char) → List Char
  | [] => []
  | [l] => l
  | l :: ls => l ++ '\n' :: joinNlChars ls

/-- `needle.isPrefixOf` somewhere in the list: Python `sub in s` on strings. -/
def listHasSub (need : List Char) : List Char → Bool
  | [] => need.isEmpty
  | c :: rest => need.isPrefixOf (c :: rest) || listHasSub need rest

/-- A parsed JSON document, as Python's `json` module represents one
(`dict` / `list` / `str` / `int` / `bool` / `None`; floats are not
modelled — the script's schema uses none). -/
inductive JValue where
  | null
  | bool (b : Bool)
  | int (n : Int)
  | str (s : String)
  | arr (elems : List JValue)
  | obj (fields : List (String × JValue))

/-- Python dict insertion `d[k] = v`: an existing key keeps its position and
takes the new value, a new key goes to the end. -/
def objInsert (fs : List (String × JValue)) (k : String) (v : JValue) :
    List (String × JValue) :=
  if fs.any (fun p => p.1 == k) then
    fs.map (fun p => if p.1 == k then (k, v) else p)
  else fs ++ [(k, v)]

/-- Building a dict from parsed key/value pairs in order. -/
def dedupFields (raw : List (String × JValue)) : List (String × JValue) :=
  raw.foldl (fun acc p => objInsert acc p.1 p.2) []

/-- Python dict lookup (after `dedupFields` keys are unique). -/
def jLookup (fs : List (String × JValue)) (k : String) : Option JValue :=
  (fs.find? (fun p => p.1 == k)).map (fun p => p.2)

/-- A JSON string-literal escape (the `\uXXXX` form is not modelled). -/
def escChar (c : Char) : Option Char :=
  if c = '"' then some '"'
  else if c = '\\' then some '\\'
  else if c = '/' then some '/'
  else if c = 'n' then some '\n'
  else if c = 't' then some '\t'
  else if c = 'r' then some '\r'
  else if c = 'b' then some (Char.ofNat 8)
  else if c = 'f' then some (Char.ofNat 12)
  else none

/-- The body of a JSON string literal after its opening quote:
(content, rest after the closing quote). -/
def parseStrBody : List Char → Option (List Char × List Char)
  | [] => none
  | c :: rest =>
    if c = '"' then some ([], rest)
    else if c = '\\' then
      match rest with
      | [] => none
      | e :: rest2 =>
        match escChar e with
        | none => none
        | some ec =>
          match parseStrBody rest2 with
          | none => none
          | some (s, r) => some (ec :: s, r)
    else
      match parseStrBody rest with
      | none => none
      | some (s, r) => some (c :: s, r)

/-- A run of decimal digits as a number; fails on an empty run or when a
float / exponent marker follows (floats are outside the model). -/
def parseDigits (l : List Char) : Option (Nat × List Char) :=
  let ds := l.takeWhile Char.isDigit
  let rest := l.dropWhile Char.isDigit
  if ds.isEmpty then none
  else
    match rest with
    | '.' :: _ => none
    | 'e' :: _ => none
    | 'E' :: _ => none
    | _ => some (ds.foldl (fun a c => a * 10 + (c.toNat - 48)) 0, rest)

/-- What may follow a serialized number so that `parseDigits` stops exactly
at its end: nothing, or a character that is neither a digit nor one of the
float markers. -/
def sepOk (rest : List Char) : Prop :=
  ∀ c, rest.head? = some c → c.isDigit = false ∧ c ≠ '.' ∧ c ≠ 'e' ∧ c ≠ 'E'

def kwTrueTail : List Char := ['r', 'u', 'e']
def kwFalseTail : List Char := ['a', 'l', 's', 'e']
def kwNullTail : List Char := ['u', 'l', 'l']

mutual

/-- One JSON value, leading whitespace allowed: (value, rest). The fuel
bounds recursion depth; `jsonLoads` supplies enough for its input. -/
def parseVal : Nat → List Char → Option (JValue × List Char)
  | 0, _ => none
  | fuel + 1, l =>
    match skipWs l with
    | [] => none
    | c :: rest =>
      if c = '"' then
        match parseStrBody rest with
        | none => none
        | some (s, r) => some (.str (String.mk s), r)
      else if c = '{' then
        match skipWs rest with
        | '}' :: r => some (.obj [], r)
        | l2 =>
          match parseFields fuel l2 with
          | none => none
          | some (fs, r) => some (.obj (dedupFields fs), r)
      else if c = '[' then
        match skipWs rest with
        | ']' :: r => some (.arr [], r)
        | l2 =>
          match parseElems fuel l2 with
          | none => none
          | some (vs, r) => some (.arr vs, r)
      else if c = 't' then
        if kwTrueTail.isPrefixOf rest then some (.bool true, rest.drop 3) else none
      else if c = 'f' then
        if kwFalseTail.isPrefixOf rest then some (.bool false, rest.drop 4) else none
      else if c = 'n' then
        if kwNullTail.isPrefixOf rest then some (.null, rest.drop 3) else none
      else if c = '-' then
        match parseDigits rest with
        | none => none
        | some (n, r) => some (.int (-(n : Int)), r)
      else if c.isDigit then
        match parseDigits (c :: rest) with
        | none => none
        | some (n, r) => some (.int (n : Int), r)
      else none

/-- The elements of a non-empty array, from the first element up to the
closing bracket. -/
def parseElems : Nat → List Char → Option (List JValue × List Char)
  | 0, _ => none
  | fuel + 1, l =>
    match parseVal fuel l with
    | none => none
    | some (v, r) =>
      match skipWs r with
      | ',' :: r2 =>
        match parseElems fuel r2 with
        | none => none
        | some (vs, r3) => some (v :: vs, r3)
      | ']' :: r2 => some ([v], r2)
      | _ => none

/-- The members of a non-empty object, from the first key up to the closing
brace; pairs in source order, duplicates kept (`dedupFields` resolves them). -/
def parseFields : Nat → List Char → Option (List (String × JValue) × List Char)
  | 0, _ => none
  | fuel + 1, l =>
    match l with
    | '"' :: rest =>
      match parseStrBody rest with
      | none => none
      | some (k, r) =>
        match skipWs r with
        | ':' :: r2 =>
          match parseVal fuel r2 with
          | none => none
          | some (v, r3) =>
            match skipWs r3 with
            | ',' :: r4 =>
              match parseFields fuel (skipWs r4) with
              | none => none
              | some (fs, r5) => some ((String.mk k, v) :: fs, r5)
            | '}' :: r4 => some ([(String.mk k, v)], r4)
            | _ => none
        | _ => none
    | _ => none

end

/-- `json.loads`: the whole input must be one JSON value plus whitespace. -/
def jsonLoads (l : List Char) : Option JValue :=
  match parseVal (2 * l.length + 8) l with
  | none => none
  | some (v, r) => if (skipWs r).isEmpty then some v else none

/-- The Python exceptions the script can raise.  `generate_trivia` catches
`jsonError` (json.JSONDecodeError) and `assertFail` (AssertionError) around
`parse_response`; the others escape as crashes. -/
inductive PyErr where
  | jsonError
  | assertFail (msg : String)
  | typeError
  | keyError
  | attrError

/-- Python `key in v` for a parsed JSON value: dict key lookup, list
membership, substring test on strings; `TypeError` otherwise. -/
def pyContains (k : String) (v : JValue) : Except PyErr Bool :=
  match v with
  | .obj fs => .ok (fs.any (fun p => p.1 == k))
  | .arr xs =>
    .ok (xs.any (fun x => match x with | .str s => s == k | _ => false))
  | .str s => .ok (listHasSub k.data s.data)
  | _ => .error .typeError

/-- Python `v[k]` with a string key: dict lookup (`KeyError` when absent);
`TypeError` on lists (string index), strings and scalars. -/
def pyGetItem (v : JValue) (k : String) : Except PyErr JValue :=
  match v with
  | .obj fs =>
    match jLookup fs k with
    | some x => .ok x
    | none => .error .keyError
  | _ => .error .typeError

/-- Python `len(v)`: list / dict / string lengths; `TypeError` otherwise. -/
def pyLen (v : JValue) : Except PyErr Int :=
  match v with
  | .arr xs => .ok (xs.length : Int)
  | .obj fs => .ok (fs.length : Int)
  | .str s => .ok (s.length : Int)
  | _ => .error .typeError

/-- Python iteration `for q in v`: list elements, string characters (each a
one-character string), dict keys; `TypeError` otherwise. -/
def pyElems (v : JValue) : Except PyErr (List JValue) :=
  match v with
  | .arr xs => .ok xs
  | .str s => .ok (s.data.map (fun c => .str (String.mk [c])))
  | .obj fs => .ok (fs.map (fun p => .str p.1))
  | _ => .error .typeError

/-- Python `v.get(k)` (`dict.get`, default `None` modelled as `none`);
`AttributeError` on anything that is not a dict. -/
def pyDictGet (v : JValue) (k : String) : Except PyErr (Option JValue) :=
  match v with
  | .obj fs => .ok (jLookup fs k)
  | _ => .error .attrError

/-- Python `isinstance(v, int)`: true for ints and — because `bool` is a
subclass of `int` in Python — for booleans. -/
def pyIsInt (v : JValue) : Bool :=
  match v with
  | .int _ => true
  | .bool _ => true
  | _ => false

/-- The integer value of an int-like JSON value (`True` counts as 1,
`False` as 0, as in Python arithmetic and comparisons). -/
def pyIntVal (v : JValue) : Int :=
  match v with
  | .int n => n
  | .bool b => if b then 1 else 0
  | _ => 0

/-- Python `assert cond, msg`. -/
def pyAssert (b : Bool) (msg : String) : Except PyErr Unit :=
  if b then .ok () else .error (.assertFail msg)

def kPreguntas : String := "preguntas"
def kBurla : String := "mensaje_burla"
def kPregunta : String := "pregunta"
def kOpciones : String := "opciones"
def kRespuesta : String := "respuesta_correcta"
def kDia : String := "dia"
def kFecha : String := "fecha"

def mFaltaPreguntas : String := "Falta el campo 'preguntas'"
def mFaltaBurla : String := "Falta el campo 'mensaje_burla'"

def mEsperaban (n : Int) : String :=
  "Se esperaban 3 preguntas, se recibieron " ++ toString n

def mFaltaPregunta (i : Nat) : String :=
  "Pregunta " ++ toString i ++ ": falta 'pregunta'"

def mFaltaOpciones (i : Nat) : String :=
  "Pregunta " ++ toString i ++ ": falta 'opciones'"

def mFaltaRespuesta (i : Nat) : String :=
  "Pregunta " ++ toString i ++ ": falta 'respuesta_correcta'"

def mNumOpciones (i : Nat) : String :=
  "Pregunta " ++ toString i ++ ": debe tener 2 o 3 opciones"

def mEntero (i : Nat) : String :=
  "Pregunta " ++ toString i ++ ": 'respuesta_correcta' debe ser un entero"

def mFueraRango (i : Nat) : String :=
  "Pregunta " ++ toString i ++ ": índice fuera de rango"

/-- The per-question asserts of `parse_response` (source lines 118-123),
for question `i`. -/
def checkQuestion (i : Nat) (q : JValue) : Except PyErr Unit :=
  match pyContains kPregunta q with
  | .error e => .error e
  | .ok b1 =>
    if !b1 then .error (.assertFail (mFaltaPregunta i)) else
    match pyContains kOpciones q with
    | .error e => .error e
    | .ok b2 =>
      if !b2 then .error (.assertFail (mFaltaOpciones i)) else
      match pyContains kRespuesta q with
      | .error e => .error e
      | .ok b3 =>
        if !b3 then .error (.assertFail (mFaltaRespuesta i)) else
        match pyGetItem q kOpciones with
        | .error e => .error e
        | .ok opts =>
          match pyLen opts with
          | .error e => .error e
          | .ok lo =>
            if !(lo == 2 || lo == 3) then
              .error (.assertFail (mNumOpciones i))
            else
              match pyGetItem q kRespuesta with
              | .error e => .error e
              | .ok rc =>
                if !(pyIsInt rc) then .error (.assertFail (mEntero i)) else
                if !(decide (0 ≤ pyIntVal rc) && decide (pyIntVal rc < lo)) then
                  .error (.assertFail (mFueraRango i))
                else .ok ()

/-- The `for i, q in enumerate(...)` loop of `parse_response`, aborting at
the first failed assert. -/
def checkQuestions (i : Nat) : List JValue → Except PyErr Unit
  | [] => .ok ()
  | q :: rest =>
    match checkQuestion i q with
    | .error e => .error e
    | .ok _ => checkQuestions (i + 1) rest

/-- The validation part of `parse_response` (source lines 112-123). -/
def validateResp (data : JValue) : Except PyErr Unit :=
  match pyContains kPreguntas data with
  | .error e => .error e
  | .ok b1 =>
    if !b1 then .error (.assertFail mFaltaPreguntas) else
    match pyContains kBurla data with
    | .error e => .error e
    | .ok b2 =>
      if !b2 then .error (.assertFail mFaltaBurla) else
      match pyGetItem data kPreguntas with
      | .error e => .error e
      | .ok pregs =>
        match pyLen pregs with
        | .error e => .error e
        | .ok n =>
          if !(n == 3) then .error (.assertFail (mEsperaban n)) else
          match pyElems pregs with
          | .error e => .error e
          | .ok elems => checkQuestions 0 elems

/-- `json.loads` then the schema asserts, on already fence-stripped text. -/
def parseResponseCore (l : List Char) : Except PyErr JValue :=
  match jsonLoads l with
  | none => .error .jsonError
  | some data =>
    match validateResp data with
    | .error e => .error e
    | .ok _ => .ok data

def fenceChars : List Char := ['`', '`', '`']

/-- `parse_response` (source lines 100-125): strip, drop fence-marker lines
when the text starts with a fence, parse, validate, return the parsed
object. -/
def parse_response (text : String) : Except PyErr JValue :=
  let cleaned := stripChars text.data
  let cleaned2 :=
    if fenceChars.isPrefixOf cleaned then
      joinNlChars ((splitNlChars cleaned).filter
        (fun l => !(fenceChars.isPrefixOf (stripChars l))))
    else cleaned
  parseResponseCore cleaned2

/-! ## Prompt builder (source lines 54-97) -/

def MAX_CONTEXT_QUESTIONS : Nat := 60

def sNl : String := "\n"
def sGuion : String := "  - "
def sNinguna : String := "  (ninguna todavía)"

/-- The prompt's text before `{prev_q_text}` (braces of the f-string's JSON
example written as \x7b / \x7d). -/
def promptPart1 : String := "Eres un experto en cultura general española. Tu trabajo es generar preguntas de trivia divertidas, variadas y educativas sobre España.

INSTRUCCIONES ESTRICTAS:
1. Genera exactamente 3 preguntas nuevas sobre cultura general española.
2. Las preguntas deben cubrir temas variados: historia, geografía, gastronomía, arte, música, deportes, ciencia, tradiciones, lengua, etc.
3. Cada pregunta puede ser:
   - Tipo test con 3 opciones (solo 1 correcta)
   - Tipo Verdadero/Falso (2 opciones: \"Verdadero\" y \"Falso\")
4. Las preguntas deben ser DIFERENTES a las siguientes preguntas ya existentes:
"

/-- The prompt's text between `{prev_q_text}` and `{dia_number}`. -/
def promptPart2 : String := "
5. Genera también un \"mensaje de burla\" diario: una frase graciosa, ingeniosa y picante (con emojis) para mostrar al usuario que falla. Debe ser divertida pero no ofensiva. Estilo humor español.

FORMATO DE RESPUESTA (JSON estricto, sin bloques de código markdown):
\x7b
  \"preguntas\": [
    \x7b
      \"pregunta\": \"texto de la pregunta\",
      \"opciones\": [\"opción 1\", \"opción 2\", \"opción 3\"],
      \"respuesta_correcta\": 0
    \x7d,
    \x7b
      \"pregunta\": \"texto de la pregunta V/F\",
      \"opciones\": [\"Verdadero\", \"Falso\"],
      \"respuesta_correcta\": 1
    \x7d,
    \x7b
      \"pregunta\": \"texto de la pregunta\",
      \"opciones\": [\"opción 1\", \"opción 2\", \"opción 3\"],
      \"respuesta_correcta\": 2
    \x7d
  ],
  \"mensaje_burla\": \"¡Frase graciosa con emojis! 😂🥘\"
\x7d

IMPORTANTE:
- \"respuesta_correcta\" es el ÍNDICE (0, 1 o 2) de la opción correcta.
- Devuelve SOLO el JSON, sin texto extra ni bloques de código.
- Las preguntas deben ser factualmente correctas.
- Este es el día #"

/-- The prompt's text after `{dia_number}`. -/
def promptPart3 : String := " de CulturIA.
"

/-- `build_prompt` (source lines 54-97): a pure function of the previous
question texts and the day number. -/
def build_prompt (previous_questions : List String) (dia_number : Int) : String :=
  let prev_q_text :=
    if previous_questions.isEmpty then sNinguna
    else String.intercalate sNl (previous_questions.map (fun q => sGuion ++ q))
  promptPart1 ++ prev_q_text ++ promptPart2 ++ toString dia_number ++ promptPart3

/-! ## Serialization: `json.dump(data, f, ensure_ascii=False, indent=2)`

A genuine serializer to text, so that the persistence round trip is a
theorem about `jsonLoads` of the written characters, not an assumption. -/

/-- One character of a JSON string literal as `json.dump` with
`ensure_ascii=False` writes it: backslash escapes for the quote, the
backslash and the five short control escapes; every other character is
written raw.  (Python writes the remaining control characters below U+0020
as `\uXXXX`; the `\u` form is outside the model on both sides.) -/
def escStringChar (c : Char) : List Char :=
  if c = '"' then ['\\', '"']
  else if c = '\\' then ['\\', '\\']
  else if c = '\n' then ['\\', 'n']
  else if c = '\t' then ['\\', 't']
  else if c = '\r' then ['\\', 'r']
  else if c = Char.ofNat 8 then ['\\', 'b']
  else if c = Char.ofNat 12 then ['\\', 'f']
  else [c]

def escString : List Char → List Char
  | [] => []
  | c :: rest => escStringChar c ++ escString rest

/-- Decimal digits of a natural number, most significant first. -/
def natChars (n : Nat) : List Char :=
  if n < 10 then [Char.ofNat (48 + n)]
  else natChars (n / 10) ++ [Char.ofNat (48 + n % 10)]
termination_by n
decreasing_by exact Nat.div_lt_self (by omega) (by omega)

/-- An integer in decimal, as Python prints it. -/
def intChars (n : Int) : List Char :=
  if n < 0 then '-' :: natChars n.natAbs else natChars n.natAbs

/-- The newline and indentation that `indent=2` writes before an item
nested at `k` spaces. -/
def wsIndent (k : Nat) : List Char :=
  '\n' :: List.replicate k ' '

def nullChars : List Char := ['n', 'u', 'l', 'l']
def trueChars : List Char := ['t', 'r', 'u', 'e']
def falseChars : List Char := ['f', 'a', 'l', 's', 'e']

/-- An object key with the `": "` key separator. -/
def dumpKey (k : String) : List Char :=
  '"' :: (escString k.data ++ ['"', ':', ' '])

mutual

/-- `json.dump(v, f, ensure_ascii=False, indent=2)` at indentation level
`ind`: scalars inline; a non-empty array or object puts each item on its
own line indented `ind + 2` with `","` separators, and the closing bracket
back at column `ind`; empty containers print as `[]` / `{}`. -/
def dumpVal (ind : Nat) : JValue → List Char
  | .null => nullChars
  | .bool true => trueChars
  | .bool false => falseChars
  | .int n => intChars n
  | .str s => '"' :: (escString s.data ++ ['"'])
  | .arr [] => ['[', ']']
  | .arr (x :: xs) =>
    '[' :: (wsIndent (ind + 2) ++ (dumpVal (ind + 2) x
      ++ (dumpElemsTail (ind + 2) xs ++ (wsIndent ind ++ [']']))))
  | .obj [] => ['{', '}']
  | .obj ((k, v) :: fs) =>
    '{' :: (wsIndent (ind + 2) ++ (dumpKey k ++ (dumpVal (ind + 2) v
      ++ (dumpFieldsTail (ind + 2) fs ++ (wsIndent ind ++ ['}'])))))

/-- The remaining elements of a non-empty array, each preceded by the
item separator and its line's indentation. -/
def dumpElemsTail (ind : Nat) : List JValue → List Char
  | [] => []
  | x :: xs => ',' :: (wsIndent ind ++ (dumpVal ind x ++ dumpElemsTail ind xs))

/-- The remaining members of a non-empty object. -/
def dumpFieldsTail (ind : Nat) : List (String × JValue) → List Char
  | [] => []
  | (k, v) :: fs =>
    ',' :: (wsIndent ind ++ (dumpKey k ++ (dumpVal ind v ++ dumpFieldsTail ind fs)))

end

/-- The text `json.dump` writes for the whole history list. -/
def dumpTop (data : List JValue) : List Char :=
  dumpVal 0 (.arr data)

mutual

/-- Every object along the value has pairwise-distinct keys — true of
everything `json.loads` returns and of the records the script writes. -/
def wfJ : JValue → Bool
  | .arr xs => wfElems xs
  | .obj fs => wfFields fs
  | _ => true

def wfElems : List JValue → Bool
  | [] => true
  | x :: xs => wfJ x && wfElems xs

def wfFields : List (String × JValue) → Bool
  | [] => true
  | (k, v) :: fs => !(fs.any (fun p => p.1 == k)) && wfJ v && wfFields fs

end

mutual

/-- Fuel that suffices for `parseVal` to consume `dumpVal`'s output. -/
def jfuelT : JValue → Nat
  | .arr xs => 1 + jfuelTElems xs
  | .obj fs => 1 + jfuelTFields fs
  | _ => 1

def jfuelTElems : List JValue → Nat
  | [] => 1
  | x :: xs => 1 + jfuelT x + jfuelTElems xs

def jfuelTFields : List (String × JValue) → Nat
  | [] => 1
  | (_, v) :: fs => 1 + jfuelT v + jfuelTFields fs

end

/-! ## History store (source lines 29-40)

The history file holds text: `missing` (no file, load returns `[]`) or
`file t` (present with contents `t`; `json.load` parses `t` or raises). -/

inductive FileState where
  | missing
  | file (text : List Char)

/-- `load_historial`: parse the file's text, `[]` when the file is missing,
`json.JSONDecodeError` when the text does not parse. -/
def load_historial (fs : FileState) : Except PyErr JValue :=
  match fs with
  | .missing => .ok (.arr [])
  | .file t =>
    match jsonLoads t with
    | some v => .ok v
    | none => .error .jsonError

/-- `save_historial`: `open(path, "w")` + `json.dump(..., ensure_ascii=False,
indent=2)` leave the file holding exactly the serialized text. -/
def save_historial (data : List JValue) : FileState :=
  .file (dumpTop data)

/-- The file states `save_historial` steps through: the prior state, then —
because `open(path, "w")` truncates the file in place — an empty (hence
unparsable) file, then the fully written text. -/
def save_historial_states (prev : FileState) (data : List JValue) :
    List FileState :=
  [prev, .file [], save_historial data]

/-- The spec's atomic-save contract: every intermediate state of a save is
either the prior state or the completed new state, so an interrupted save
never leaves anything else on disk. -/
def AtomicSave (prev : FileState) (data : List JValue) : Prop :=
  ∀ s ∈ save_historial_states prev data, s = prev ∨ s = save_historial data

/-! ## Anti-repetition context (source lines 43-51) -/

/-- The inner `for q in day.get("preguntas", [])` loop: append
`q["pregunta"]`, returning early (flag `true`) once `max_questions` is
reached. -/
def gpqQuestions (acc : List JValue) (maxQ : Nat) :
    List JValue → Except PyErr (List JValue × Bool)
  | [] => .ok (acc, false)
  | q :: rest =>
    match pyGetItem q kPregunta with
    | .error e => .error e
    | .ok p =>
      let acc2 := acc ++ [p]
      if maxQ ≤ acc2.length then .ok (acc2, true)
      else gpqQuestions acc2 maxQ rest

/-- The outer `for day in historial` loop of `get_previous_questions`. -/
def gpqDays (acc : List JValue) (maxQ : Nat) :
    List JValue → Except PyErr (List JValue)
  | [] => .ok acc
  | day :: rest =>
    match pyDictGet day kPreguntas with
    | .error e => .error e
    | .ok vOpt =>
      match pyElems (vOpt.getD (.arr [])) with
      | .error e => .error e
      | .ok qs =>
        match gpqQuestions acc maxQ qs with
        | .error e => .error e
        | .ok (acc2, true) => .ok acc2
        | .ok (acc2, false) => gpqDays acc2 maxQ rest

/-- `get_previous_questions` (source lines 43-51). -/
def get_previous_questions (historial : List JValue)
    (maxQ : Nat := MAX_CONTEXT_QUESTIONS) : Except PyErr (List JValue) :=
  gpqDays [] maxQ historial

/-! ## Orchestrator (source lines 128-193)

External effects are inputs: `api_key` the environment variable, `fecha_hoy`
the formatted UTC+1 date, `raw_text` the model's response text.  The prompt
construction and the Groq call sit between the duplicate-day check and
`parse_response`; the call itself is outside the model. -/

/-- How a run of `generate_trivia` ends. -/
inductive GenResult where
  | exitNoKey
  | pyCrash (e : PyErr)
  | skippedDuplicate
  | exitParseError (e : PyErr)
  | success (newHistorial : List JValue)

/-- `historial[0]["dia"] + 1` — Python `+ 1` accepts ints and booleans. -/
def pyAdd1 (v : JValue) : Except PyErr Int :=
  match v with
  | .int n => .ok (n + 1)
  | .bool b => .ok ((if b then 1 else 0) + 1)
  | _ => .error .typeError

/-- `dia_number = (historial[0]["dia"] + 1) if historial else 1`
(source line 140). -/
def diaNumber (historial : List JValue) : Except PyErr Int :=
  match historial with
  | [] => .ok 1
  | h :: _ =>
    match pyGetItem h kDia with
    | .error e => .error e
    | .ok v => pyAdd1 v

/-- `historial and historial[0].get("fecha") == fecha_hoy`
(source line 143): only the front record is inspected. -/
def isDuplicateDay (historial : List JValue) (fecha_hoy : String) :
    Except PyErr Bool :=
  match historial with
  | [] => .ok false
  | h :: _ =>
    match pyDictGet h kFecha with
    | .error e => .error e
    | .ok vOpt =>
      .ok (match vOpt with
           | some (.str s) => s == fecha_hoy
           | _ => false)

/-- `generate_trivia` (source lines 128-193) after the history is loaded:
check the key, compute the day number, skip on a duplicate day, gather the
anti-repetition context, (call the model,) parse and validate `raw_text`,
and prepend the new day record.  `json.JSONDecodeError` and
`AssertionError` from `parse_response` exit with code 1; any other
exception escapes as a crash. -/
def generate_trivia (api_key : Option String) (historial : List JValue)
    (fecha_hoy : String) (raw_text : String) : GenResult :=
  match api_key with
  | none => .exitNoKey
  | some _ =>
    match diaNumber historial with
    | .error e => .pyCrash e
    | .ok dia_number =>
      match isDuplicateDay historial fecha_hoy with
      | .error e => .pyCrash e
      | .ok true => .skippedDuplicate
      | .ok false =>
        match get_previous_questions historial with
        | .error e => .pyCrash e
        | .ok _prev_questions =>
          match parse_response raw_text with
          | .error .jsonError => .exitParseError .jsonError
          | .error (.assertFail m) => .exitParseError (.assertFail m)
          | .error e => .pyCrash e
          | .ok new_data =>
            match pyGetItem new_data kPreguntas with
            | .error e => .pyCrash e
            | .ok pr =>
              match pyGetItem new_data kBurla with
              | .error e => .pyCrash e
              | .ok mb =>
                let new_day : JValue :=
                  .obj [(kDia, .int dia_number), (kFecha, .str fecha_hoy),
                        (kPreguntas, pr), (kBurla, mb)]
                .success (new_day :: historial)

/-- One whole run: load the history file, run `generate_trivia`, save the
new history on success; every other outcome leaves the file untouched. -/
def run_main (api_key : Option String) (fs : FileState)
    (fecha_hoy raw_text : String) : GenResult × FileState :=
  match load_historial fs with
  | .error e => (.pyCrash e, fs)
  | .ok (.arr historial) =>
    match generate_trivia api_key historial fecha_hoy raw_text with
    | .success newHist => (.success newHist, save_historial newHist)
    | r => (r, fs)
  | .ok _ => (.pyCrash .typeError, fs)

/-! ## Typed records

The shape of the records the script itself writes (spec section 3); the
history file's JSON is their `encodeRecord` image, and `decodeRecord` reads
the fields back as a consumer of the file would. -/

structure Pregunta where
  pregunta : String
  opciones : List String
  respuesta_correcta : Int

structure HistoryRecord where
  dia : Int
  fecha : String
  preguntas : List Pregunta
  mensaje_burla : String

def encodePregunta (q : Pregunta) : JValue :=
  .obj [(kPregunta, .str q.pregunta),
        (kOpciones, .arr (q.opciones.map .str)),
        (kRespuesta, .int q.respuesta_correcta)]

def encodeRecord (r : HistoryRecord) : JValue :=
  .obj [(kDia, .int r.dia), (kFecha, .str r.fecha),
        (kPreguntas, .arr (r.preguntas.map encodePregunta)),
        (kBurla, .str r.mensaje_burla)]

/-- All-or-nothing traversal of a list with an optional reader. -/
def mapOpt (f : JValue → Option A) : List JValue → Option (List A)
  | [] => some []
  | x :: xs =>
    match f x, mapOpt f xs with
    | some y, some ys => some (y :: ys)
    | _, _ => none

def asStr (v : JValue) : Option String :=
  match v with
  | .str s => some s
  | _ => none

def asInt (v : JValue) : Option Int :=
  match v with
  | .int n => some n
  | _ => none

def decodePregunta (v : JValue) : Option Pregunta :=
  match v with
  | .obj fs =>
    match jLookup fs kPregunta, jLookup fs kOpciones, jLookup fs kRespuesta with
    | some (.str p), some (.arr os), some (.int rc) =>
      match mapOpt asStr os with
      | some opciones => some ⟨p, opciones, rc⟩
      | none => none
    | _, _, _ => none
  | _ => none

def decodeRecord (v : JValue) : Option HistoryRecord :=
  match v with
  | .obj fs =>
    match jLookup fs kDia, jLookup fs kFecha, jLookup fs kPreguntas,
          jLookup fs kBurla with
    | some (.int d), some (.str f), some (.arr ps), some (.str mb) =>
      match mapOpt decodePregunta ps with
      | some preguntas => some ⟨d, f, preguntas, mb⟩
      | none => none
    | _, _, _, _ => none
  | _ => none

def decodeHistorial (v : JValue) : Option (List HistoryRecord) :=
  match v with
  | .arr l => mapOpt decodeRecord l
  | _ => none

/-- The question texts of a typed history, flattened most-recent-day-first
and in within-day order, as the JSON values `q["pregunta"]` yields. -/
def flatPreguntas : List HistoryRecord → List JValue
  | [] => []
  | r :: rest => r.preguntas.map (fun q => .str q.pregunta) ++ flatPreguntas rest

/-! ## The schema as the claims state it

Boolean restatements of the schema over the Python-semantics primitives,
used to state what a successful `parse_response` guarantees. -/

/-- One accepted question: the three fields are present, the options count
is 2 or 3, the correct index is an `int` (Python-style: booleans included)
strictly within `[0, options count)`. -/
def qOk (q : JValue) : Bool :=
  match pyContains kPregunta q, pyContains kOpciones q, pyContains kRespuesta q with
  | .ok true, .ok true, .ok true =>
    match pyGetItem q kOpciones, pyGetItem q kRespuesta with
    | .ok opts, .ok rc =>
      match pyLen opts with
      | .ok lo =>
        (lo == 2 || lo == 3) && pyIsInt rc
          && decide (0 ≤ pyIntVal rc) && decide (pyIntVal rc < lo)
      | .error _ => false
    | _, _ => false
  | _, _, _ => false

/-- A fully well-formed response: `preguntas` and `mensaje_burla` present,
exactly 3 questions, every question `qOk`. -/
def wellFormedResp (d : JValue) : Bool :=
  match pyContains kPreguntas d, pyContains kBurla d with
  | .ok true, .ok true =>
    match pyGetItem d kPreguntas with
    | .ok pregs =>
      match pyLen pregs, pyElems pregs with
      | .ok 3, .ok elems => elems.length == 3 && elems.all qOk
      | _, _ => false
    | .error _ => false
  | _, _ => false

/-- Whether a `PyErr` is a failed `assert` (Python `AssertionError`) — the
validation errors of `parse_response`, the only errors that carry the
rule/question-index message. -/
def isAssertFail (e : PyErr) : Bool :=
  match e with
  | .assertFail _ => true
  | _ => false

/-! ## Concrete inputs for witnesses and counterexamples -/

def sFenceJson : String := "```json"
def sFence : String := "```"
def fjChars : List Char := ['`', '`', '`', 'j', 's', 'o', 'n']
def sDia1 : String := "día #1"
def sNingunaNeedle : String := "(ninguna todavía)"

/-- A fully valid model response. -/
def cGoodRaw : String := "\x7b\"preguntas\": [\x7b\"pregunta\": \"P1\", \"opciones\": [\"a\", \"b\"], \"respuesta_correcta\": 0\x7d, \x7b\"pregunta\": \"P2\", \"opciones\": [\"a\", \"b\", \"c\"], \"respuesta_correcta\": 2\x7d, \x7b\"pregunta\": \"P3\", \"opciones\": [\"Verdadero\", \"Falso\"], \"respuesta_correcta\": 1\x7d], \"mensaje_burla\": \"jeje\"\x7d"

def cGoodQ1 : JValue :=
  .obj [(kPregunta, .str "P1"), (kOpciones, .arr [.str "a", .str "b"]),
        (kRespuesta, .int 0)]

def cGoodQ2 : JValue :=
  .obj [(kPregunta, .str "P2"),
        (kOpciones, .arr [.str "a", .str "b", .str "c"]), (kRespuesta, .int 2)]

def cGoodQ3 : JValue :=
  .obj [(kPregunta, .str "P3"),
        (kOpciones, .arr [.str "Verdadero", .str "Falso"]), (kRespuesta, .int 1)]

def cGoodPregs : JValue := .arr [cGoodQ1, cGoodQ2, cGoodQ3]

def cGoodVal : JValue := .obj [(kPreguntas, cGoodPregs), (kBurla, .str "jeje")]

/-- Missing the `preguntas` field. -/
def cMissingPreguntas : String := "\x7b\"mensaje_burla\": \"x\"\x7d"

/-- A `preguntas` array of length 2. -/
def cDosRaw : String := "\x7b\"preguntas\": [1, 2], \"mensaje_burla\": \"x\"\x7d"

/-- A `preguntas` array of length 4. -/
def cCuatroRaw : String := "\x7b\"preguntas\": [1, 2, 3, 4], \"mensaje_burla\": \"x\"\x7d"

/-- First question's correct index equals its options count. -/
def cIdxEqRaw : String := "\x7b\"preguntas\": [\x7b\"pregunta\": \"p\", \"opciones\": [\"a\", \"b\"], \"respuesta_correcta\": 2\x7d, 0, 0], \"mensaje_burla\": \"x\"\x7d"

/-- First question's correct index is a JSON string, not an integer. -/
def cNonIntRaw : String := "\x7b\"preguntas\": [\x7b\"pregunta\": \"p\", \"opciones\": [\"a\", \"b\"], \"respuesta_correcta\": \"0\"\x7d, 0, 0], \"mensaje_burla\": \"x\"\x7d"

/-- A top-level JSON number: `"preguntas" in 5` raises `TypeError`, which
is neither an `AssertionError` nor a `json.JSONDecodeError`. -/
def cTop5 : String := "5"

/-- A response whose first `respuesta_correcta` is the JSON boolean
`true`. -/
def cBoolRaw : String := "\x7b\"preguntas\": [\x7b\"pregunta\": \"p\", \"opciones\": [\"V\", \"F\"], \"respuesta_correcta\": true\x7d, \x7b\"pregunta\": \"q\", \"opciones\": [\"V\", \"F\"], \"respuesta_correcta\": 0\x7d, \x7b\"pregunta\": \"r\", \"opciones\": [\"V\", \"F\"], \"respuesta_correcta\": 1\x7d], \"mensaje_burla\": \"m\"\x7d"

def cBoolQ1 : JValue :=
  .obj [(kPregunta, .str "p"), (kOpciones, .arr [.str "V", .str "F"]),
        (kRespuesta, .bool true)]

def cBoolQ2 : JValue :=
  .obj [(kPregunta, .str "q"), (kOpciones, .arr [.str "V", .str "F"]),
        (kRespuesta, .int 0)]

def cBoolQ3 : JValue :=
  .obj [(kPregunta, .str "r"), (kOpciones, .arr [.str "V", .str "F"]),
        (kRespuesta, .int 1)]

def cBoolVal : JValue :=
  .obj [(kPreguntas, .arr [cBoolQ1, cBoolQ2, cBoolQ3]), (kBurla, .str "m")]

/-- A history record dated one day before `wHoy`. -/
def wRecAyer : HistoryRecord :=
  ⟨4, "2026-10-11", [⟨"¿Capital de España?", ["Madrid", "París"], 0⟩], "burla"⟩

/-- A history record dated `wHoy` itself. -/
def wRecHoy : HistoryRecord :=
  ⟨3, "2026-10-12", [⟨"¿Río más largo?", ["Tajo", "Ebro"], 0⟩], "burla2"⟩

def wHoy : String := "2026-10-12"

/-! ## Reduction lemmas for encoded records -/

theorem pyGetItem_encodeRecord_dia (r : HistoryRecord) :
    pyGetItem (encodeRecord r) kDia = .ok (.int r.dia) := rfl

theorem diaNumber_encoded (r : HistoryRecord) (rest : List JValue) :
    diaNumber (encodeRecord r :: rest) = .ok (r.dia + 1) := rfl

theorem isDuplicateDay_encoded (r : HistoryRecord) (rest : List JValue)
    (hoy : String) :
    isDuplicateDay (encodeRecord r :: rest) hoy = .ok (r.fecha == hoy) := rfl

theorem pyDictGet_encodeRecord_preguntas (r : HistoryRecord) :
    pyDictGet (encodeRecord r) kPreguntas
      = .ok (some (.arr (r.preguntas.map encodePregunta))) := rfl

theorem pyGetItem_encodePregunta (q : Pregunta) :
    pyGetItem (encodePregunta q) kPregunta = .ok (.str q.pregunta) := rfl

/-! ## C6: persistence round trip -/

theorem mapOpt_asStr_map (l : List String) :
    mapOpt asStr (l.map JValue.str) = some l := by
  induction l with
  | nil => rfl
  | cons a t ih => simp [mapOpt, asStr, ih]

theorem decodePregunta_encode (q : Pregunta) :
    decodePregunta (encodePregunta q) = some q := by
  show (match mapOpt asStr (q.opciones.map JValue.str) with
        | some o => some (Pregunta.mk q.pregunta o q.respuesta_correcta)
        | none => none) = some q
  rw [mapOpt_asStr_map]

theorem mapOpt_decodePregunta_map (l : List Pregunta) :
    mapOpt decodePregunta (l.map encodePregunta) = some l := by
  induction l with
  | nil => rfl
  | cons a t ih => simp [mapOpt, decodePregunta_encode, ih]

theorem decodeRecord_encode (r : HistoryRecord) :
    decodeRecord (encodeRecord r) = some r := by
  show (match mapOpt decodePregunta (r.preguntas.map encodePregunta) with
        | some p => some (HistoryRecord.mk r.dia r.fecha p r.mensaje_burla)
        | none => none) = some r
  rw [mapOpt_decodePregunta_map]

/-! ## C8: the prompt builder -/

set_option maxRecDepth 20000

/-- C8 (confirmed). `build_prompt` is a pure function — equal inputs give
equal output — and on the empty history (no previous questions, day 1) the
prompt contains "día #1" and "(ninguna todavía)". -/
theorem build_prompt_deterministic_day1 :
    (∀ (pq : List String) (d : Int), build_prompt pq d = build_prompt pq d)
    ∧ listHasSub sDia1.data (build_prompt [] 1).data = true
    ∧ listHasSub sNingunaNeedle.data (build_prompt [] 1).data = true :=
  ⟨fun _ _ => rfl, by decide, by decide⟩

/-! ## C9: Python's isinstance accepts booleans as ints -/

/-- C9 (confirmed). `isinstance(True, int)` holds in Python, so the
"'respuesta_correcta' must be an integer" check lets the JSON boolean
`true` through: a response whose first question has `respuesta_correcta:
true` (with 2 options) is accepted whole by `parse_response`. -/
theorem respuesta_correcta_accepts_boolean :
    pyIsInt (.bool true) = true
    ∧ parse_response cBoolRaw = .ok cBoolVal := ⟨rfl, rfl⟩

theorem gpqQuestions_encoded (ps : List Pregunta) (acc : List JValue) (maxQ : Nat)
    (h : acc.length < maxQ) :
    gpqQuestions acc maxQ (ps.map encodePregunta)
      = .ok ((acc ++ ps.map (fun q => JValue.str q.pregunta)).take maxQ,
             decide (maxQ ≤ acc.length + ps.length)) := by
  induction ps generalizing acc with
  | nil =>
    simp [gpqQuestions, List.take_of_length_le (Nat.le_of_lt h), Nat.not_le.mpr h]
  | cons q ps ih =>
    rw [List.map_cons,
      show gpqQuestions acc maxQ (encodePregunta q :: ps.map encodePregunta)
        = (if maxQ ≤ (acc ++ [JValue.str q.pregunta]).length
           then Except.ok (acc ++ [JValue.str q.pregunta], true)
           else gpqQuestions (acc ++ [JValue.str q.pregunta]) maxQ
             (ps.map encodePregunta)) from rfl]
    have hlen : (acc ++ [JValue.str q.pregunta]).length = acc.length + 1 := by simp
    by_cases hle : maxQ ≤ (acc ++ [JValue.str q.pregunta]).length
    · rw [if_pos hle]
      rw [hlen] at hle
      have hmax : maxQ = acc.length + 1 := by omega
      subst hmax
      rw [List.map_cons, List.take_append_eq_append_take,
        List.take_of_length_le (Nat.le_succ _)]
      have hsub : acc.length + 1 - acc.length = 1 := by omega
      rw [hsub]
      simp
    · rw [if_neg hle]
      rw [hlen] at hle
      have harg : (acc ++ [JValue.str q.pregunta]).length < maxQ := by
        rw [hlen]; omega
      rw [ih (acc ++ [JValue.str q.pregunta]) harg]
      rw [List.append_assoc, List.singleton_append, List.map_cons]
      have hlen2 : (acc ++ [JValue.str q.pregunta]).length + ps.length
          = acc.length + (ps.length + 1) := by rw [hlen]; omega
      rw [hlen2]
      simp

theorem gpqDays_encoded (hs : List HistoryRecord) (acc : List JValue) (maxQ : Nat)
    (h : acc.length < maxQ) :
    gpqDays acc maxQ (hs.map encodeRecord)
      = .ok ((acc ++ flatPreguntas hs).take maxQ) := by
  induction hs generalizing acc with
  | nil => simp [gpqDays, flatPreguntas, List.take_of_length_le (Nat.le_of_lt h)]
  | cons r hs ih =>
    rw [List.map_cons,
      show gpqDays acc maxQ (encodeRecord r :: hs.map encodeRecord)
        = (match gpqQuestions acc maxQ (r.preguntas.map encodePregunta) with
           | .error e => .error e
           | .ok (acc2, true) => .ok acc2
           | .ok (acc2, false) => gpqDays acc2 maxQ (hs.map encodeRecord))
        from rfl]
    rw [gpqQuestions_encoded r.preguntas acc maxQ h]
    rw [show flatPreguntas (r :: hs)
        = r.preguntas.map (fun q => JValue.str q.pregunta) ++ flatPreguntas hs
        from rfl]
    by_cases hflag : maxQ ≤ acc.length + r.preguntas.length
    · rw [decide_eq_true hflag]
      have h0 : maxQ - (acc ++ r.preguntas.map (fun q => JValue.str q.pregunta)).length = 0 := by
        simp only [List.length_append, List.length_map]
        omega
      show Except.ok ((acc ++ r.preguntas.map (fun q => JValue.str q.pregunta)).take maxQ) = _
      congr 1
      conv_rhs => rw [← List.append_assoc, List.take_append_eq_append_take]
      rw [h0, List.take_zero, List.append_nil]
    · rw [decide_eq_false hflag]
      show gpqDays ((acc ++ r.preguntas.map (fun q => JValue.str q.pregunta)).take maxQ)
        maxQ (hs.map encodeRecord) = _
      have hsz : (acc ++ r.preguntas.map (fun q => JValue.str q.pregunta)).length < maxQ := by
        simp only [List.length_append, List.length_map]
        omega
      rw [List.take_of_length_le (Nat.le_of_lt hsz)]
      rw [ih _ hsz]
      rw [List.append_assoc]

theorem get_previous_questions_encoded (hs : List HistoryRecord) :
    get_previous_questions (hs.map encodeRecord)
      = .ok ((flatPreguntas hs).take MAX_CONTEXT_QUESTIONS) := by
  have h0 : (List.nil (α := JValue)).length < MAX_CONTEXT_QUESTIONS := by
    simp [MAX_CONTEXT_QUESTIONS]
  simpa [get_previous_questions] using
    gpqDays_encoded hs [] MAX_CONTEXT_QUESTIONS h0

/-- C5 (confirmed). On any well-formed history the anti-repetition
extraction returns exactly the flattened question texts
(most-recent-day-first, within-day order) capped at 60: never more than
60, exactly 60 when more than 60 exist, and all of them in order when at
most 60 exist. -/
theorem get_previous_questions_cap (hs : List HistoryRecord) :
    get_previous_questions (hs.map encodeRecord)
      = .ok ((flatPreguntas hs).take MAX_CONTEXT_QUESTIONS)
    ∧ ((flatPreguntas hs).take MAX_CONTEXT_QUESTIONS).length ≤ 60
    ∧ (60 < (flatPreguntas hs).length →
        ((flatPreguntas hs).take MAX_CONTEXT_QUESTIONS).length = 60)
    ∧ ((flatPreguntas hs).length ≤ 60 →
        (flatPreguntas hs).take MAX_CONTEXT_QUESTIONS = flatPreguntas hs) := by
  refine ⟨get_previous_questions_encoded hs, ?_, ?_, ?_⟩
  · simp only [List.length_take, MAX_CONTEXT_QUESTIONS]
    omega
  · intro h
    simp only [List.length_take, MAX_CONTEXT_QUESTIONS]
    omega
  · intro h
    exact List.take_of_length_le (by simpa [MAX_CONTEXT_QUESTIONS] using h)

/-! ## C2, C4, C10: the orchestrator -/

/-- A run over a well-formed non-empty history whose front record is not
dated today, with a response that parses and validates: the new day record
is prepended, carrying day number `front.dia + 1` and today's date. -/
theorem generate_trivia_proceeds (key hoy raw : String) (r : HistoryRecord)
    (rest : List HistoryRecord) (data pr mb : JValue)
    (hne : (r.fecha == hoy) = false)
    (hp : parse_response raw = .ok data)
    (hpr : pyGetItem data kPreguntas = .ok pr)
    (hmb : pyGetItem data kBurla = .ok mb) :
    generate_trivia (some key) ((r :: rest).map encodeRecord) hoy raw
      = .success (.obj [(kDia, .int (r.dia + 1)), (kFecha, .str hoy),
            (kPreguntas, pr), (kBurla, mb)]
          :: (r :: rest).map encodeRecord) := by
  have hskip : isDuplicateDay (encodeRecord r :: rest.map encodeRecord) hoy
      = .ok false := by
    rw [isDuplicateDay_encoded, hne]
  have hprev := get_previous_questions_encoded (r :: rest)
  rw [List.map_cons] at hprev
  rw [show generate_trivia (some key) ((r :: rest).map encodeRecord) hoy raw
      = (match diaNumber ((r :: rest).map encodeRecord) with
         | .error e => .pyCrash e
         | .ok dia_number =>
           match isDuplicateDay ((r :: rest).map encodeRecord) hoy with
           | .error e => .pyCrash e
           | .ok true => .skippedDuplicate
           | .ok false =>
             match get_previous_questions ((r :: rest).map encodeRecord) with
             | .error e => .pyCrash e
             | .ok _ =>
               match parse_response raw with
               | .error .jsonError => .exitParseError .jsonError
               | .error (.assertFail m) => .exitParseError (.assertFail m)
               | .error e => .pyCrash e
               | .ok new_data =>
                 match pyGetItem new_data kPreguntas with
                 | .error e => .pyCrash e
                 | .ok pr' =>
                   match pyGetItem new_data kBurla with
                   | .error e => .pyCrash e
                   | .ok mb' =>
                     .success (.obj [(kDia, .int dia_number),
                         (kFecha, .str hoy), (kPreguntas, pr'),
                         (kBurla, mb')]
                       :: (r :: rest).map encodeRecord))
      from rfl]
  rw [List.map_cons, diaNumber_encoded, hskip, hprev]
  simp only [hp, hpr, hmb]

/-- A run on the empty history with a response that parses and validates:
the single new record carries day number 1 and today's date. -/
theorem generate_trivia_empty_history (key hoy raw : String)
    (data pr mb : JValue)
    (hp : parse_response raw = .ok data)
    (hpr : pyGetItem data kPreguntas = .ok pr)
    (hmb : pyGetItem data kBurla = .ok mb) :
    generate_trivia (some key) [] hoy raw
      = .success [.obj [(kDia, .int 1), (kFecha, .str hoy),
          (kPreguntas, pr), (kBurla, mb)]] := by
  rw [show generate_trivia (some key) [] hoy raw
      = (match parse_response raw with
         | .error .jsonError => .exitParseError .jsonError
         | .error (.assertFail m) => .exitParseError (.assertFail m)
         | .error e => .pyCrash e
         | .ok new_data =>
           match pyGetItem new_data kPreguntas with
           | .error e => .pyCrash e
           | .ok pr' =>
             match pyGetItem new_data kBurla with
             | .error e => .pyCrash e
             | .ok mb' =>
               GenResult.success [.obj [(kDia, .int 1), (kFecha, .str hoy),
                   (kPreguntas, pr'), (kBurla, mb')]])
      from rfl]
  simp only [hp, hpr, hmb]

/-- C4 (confirmed). The day number of a newly generated record is the
front record's day number plus one; on an empty history it is 1. -/
theorem day_number_assignment (key hoy raw : String) (r : HistoryRecord)
    (rest : List HistoryRecord) (data pr mb : JValue)
    (hne : (r.fecha == hoy) = false)
    (hp : parse_response raw = .ok data)
    (hpr : pyGetItem data kPreguntas = .ok pr)
    (hmb : pyGetItem data kBurla = .ok mb) :
    generate_trivia (some key) ((r :: rest).map encodeRecord) hoy raw
      = .success (.obj [(kDia, .int (r.dia + 1)), (kFecha, .str hoy),
            (kPreguntas, pr), (kBurla, mb)]
          :: (r :: rest).map encodeRecord)
    ∧ generate_trivia (some key) [] hoy raw
      = .success [.obj [(kDia, .int 1), (kFecha, .str hoy),
          (kPreguntas, pr), (kBurla, mb)]] :=
  ⟨generate_trivia_proceeds key hoy raw r rest data pr mb hne hp hpr hmb,
   generate_trivia_empty_history key hoy raw data pr mb hp hpr hmb⟩

/-- C4 witness: a concrete yesterday-dated record and the concrete valid
response, and the empty history with the same response. -/
theorem day_number_assignment_witness :
    generate_trivia (some "k") ((wRecAyer :: []).map encodeRecord) wHoy cGoodRaw
      = .success (.obj [(kDia, .int (wRecAyer.dia + 1)), (kFecha, .str wHoy),
            (kPreguntas, cGoodPregs), (kBurla, .str "jeje")]
          :: (wRecAyer :: []).map encodeRecord)
    ∧ generate_trivia (some "k") [] wHoy cGoodRaw
      = .success [.obj [(kDia, .int 1), (kFecha, .str wHoy),
          (kPreguntas, cGoodPregs), (kBurla, .str "jeje")]] :=
  day_number_assignment "k" wHoy cGoodRaw wRecAyer [] cGoodVal cGoodPregs
    (.str "jeje") rfl rfl rfl rfl

/-- C10 (confirmed). The duplicate-day check reads only the front record:
when the front record's date differs from today, generation proceeds to a
successful new record even though a record bearing today's date sits
deeper in the history. -/
theorem duplicate_check_ignores_deeper_records (key hoy raw : String)
    (r r2 : HistoryRecord) (rest : List HistoryRecord) (data pr mb : JValue)
    (hne : (r.fecha == hoy) = false)
    (_hdeep : r2 ∈ rest ∧ r2.fecha = hoy)
    (hp : parse_response raw = .ok data)
    (hpr : pyGetItem data kPreguntas = .ok pr)
    (hmb : pyGetItem data kBurla = .ok mb) :
    generate_trivia (some key) ((r :: rest).map encodeRecord) hoy raw
      = .success (.obj [(kDia, .int (r.dia + 1)), (kFecha, .str hoy),
            (kPreguntas, pr), (kBurla, mb)]
          :: (r :: rest).map encodeRecord)
    ∧ generate_trivia (some key) ((r :: rest).map encodeRecord) hoy raw
      ≠ .skippedDuplicate := by
  have h := generate_trivia_proceeds key hoy raw r rest data pr mb hne hp hpr hmb
  exact ⟨h, by rw [h]; exact fun hc => GenResult.noConfusion hc⟩

/-- C10 witness: front record dated yesterday, a second record dated today
deeper in the history, and the concrete valid response. -/
theorem duplicate_check_ignores_deeper_records_witness :
    generate_trivia (some "k") ((wRecAyer :: [wRecHoy]).map encodeRecord)
        wHoy cGoodRaw
      = .success (.obj [(kDia, .int (wRecAyer.dia + 1)), (kFecha, .str wHoy),
            (kPreguntas, cGoodPregs), (kBurla, .str "jeje")]
          :: (wRecAyer :: [wRecHoy]).map encodeRecord)
    ∧ generate_trivia (some "k") ((wRecAyer :: [wRecHoy]).map encodeRecord)
        wHoy cGoodRaw
      ≠ .skippedDuplicate :=
  duplicate_check_ignores_deeper_records "k" wHoy cGoodRaw wRecAyer wRecHoy
    [wRecHoy] cGoodVal cGoodPregs (.str "jeje") rfl
    ⟨List.mem_singleton.mpr rfl, rfl⟩ rfl rfl rfl

theorem splitNl_ne_nil (l : List Char) : splitNlChars l ≠ [] := by
  cases l with
  | nil => simp [splitNlChars]
  | cons c rest =>
    simp only [splitNlChars]
    split
    · simp
    · split <;> simp

theorem splitNl_append (a b : List Char) :
    splitNlChars (a ++ '\n' :: b) = splitNlChars a ++ splitNlChars b := by
  induction a with
  | nil => simp [splitNlChars]
  | cons c a ih =>
    obtain ⟨h, t, hs⟩ := List.exists_cons_of_ne_nil (splitNl_ne_nil a)
    by_cases hc : c = '\n'
    · subst hc
      rw [List.cons_append,
        show splitNlChars ('\n' :: (a ++ '\n' :: b)) = [] :: splitNlChars (a ++ '\n' :: b) from by
          simp [splitNlChars],
        ih,
        show splitNlChars ('\n' :: a) = [] :: splitNlChars a from by simp [splitNlChars]]
      rfl
    · rw [List.cons_append]
      rw [show splitNlChars (c :: (a ++ '\n' :: b))
          = (match splitNlChars (a ++ '\n' :: b) with
             | [] => [[c]]
             | h :: t => (c :: h) :: t) from by simp [splitNlChars, hc]]
      rw [show splitNlChars (c :: a)
          = (match splitNlChars a with
             | [] => [[c]]
             | h :: t => (c :: h) :: t) from by simp [splitNlChars, hc]]
      rw [ih, hs]
      rfl

theorem joinNl_splitNl (l : List Char) : joinNlChars (splitNlChars l) = l := by
  induction l with
  | nil => rfl
  | cons c rest ih =>
    obtain ⟨h, t, hs⟩ := List.exists_cons_of_ne_nil (splitNl_ne_nil rest)
    by_cases hc : c = '\n'
    · subst hc
      rw [show splitNlChars ('\n' :: rest) = [] :: splitNlChars rest from by
        simp [splitNlChars]]
      rw [show joinNlChars ([] :: splitNlChars rest)
          = [] ++ '\n' :: joinNlChars (splitNlChars rest) from by
        rw [hs]; rfl]
      rw [ih]
      rfl
    · rw [show splitNlChars (c :: rest)
          = (match splitNlChars rest with
             | [] => [[c]]
             | h :: t => (c :: h) :: t) from by simp [splitNlChars, hc]]
      rw [hs]
      cases t with
      | nil =>
        show c :: h = c :: rest
        rw [← ih, hs]
        rfl
      | cons t1 ts =>
        show (c :: h) ++ '\n' :: joinNlChars (t1 :: ts) = c :: rest
        rw [← ih, hs]
        rfl

theorem stripChars_eq_self (l : List Char)
    (h1 : ∀ c, l.head? = some c → isWsChar c = false)
    (h2 : ∀ c, l.getLast? = some c → isWsChar c = false) :
    stripChars l = l := by
  unfold stripChars
  cases l with
  | nil => rfl
  | cons a t =>
    have ha : isWsChar a = false := h1 a rfl
    rw [List.dropWhile_cons]
    simp only [ha, Bool.false_eq_true, if_false]
    obtain ⟨d, u, hd⟩ :=
      List.exists_cons_of_ne_nil (l := (a :: t).reverse) (by simp)
    have hdlast : (a :: t).getLast? = some d := by
      rw [← List.head?_reverse, hd]
      rfl
    have hdw : isWsChar d = false := h2 d hdlast
    rw [hd, List.dropWhile_cons]
    simp only [hdw, Bool.false_eq_true, if_false]
    rw [← hd, List.reverse_reverse]

theorem stripChars_wrapped (body : List Char) :
    stripChars (fjChars ++ '\n' :: body ++ '\n' :: fenceChars)
      = fjChars ++ '\n' :: body ++ '\n' :: fenceChars := by
  apply stripChars_eq_self
  · intro c hc
    simp [fjChars] at hc
    rw [← hc]
    rfl
  · intro c hc
    rw [← List.head?_reverse] at hc
    simp [List.reverse_append, fjChars, fenceChars] at hc
    rw [← hc]
    rfl

theorem string_data_append (a b : String) : (a ++ b).data = a.data ++ b.data := by
  cases a
  cases b
  rfl

theorem parse_response_strips_fences (body : String)
    (hlines : (splitNlChars body.data).all
        (fun l => !(fenceChars.isPrefixOf (stripChars l))) = true) :
    parse_response (sFenceJson ++ sNl ++ body ++ sNl ++ sFence)
      = parseResponseCore body.data := by
  have hdata : (sFenceJson ++ sNl ++ body ++ sNl ++ sFence).data
      = fjChars ++ '\n' :: body.data ++ '\n' :: fenceChars := by
    simp [string_data_append, sFenceJson, sNl, sFence, fjChars, fenceChars]
  rw [show parse_response (sFenceJson ++ sNl ++ body ++ sNl ++ sFence)
      = parseResponseCore
          (if fenceChars.isPrefixOf
              (stripChars (sFenceJson ++ sNl ++ body ++ sNl ++ sFence).data) then
             joinNlChars
               ((splitNlChars
                   (stripChars (sFenceJson ++ sNl ++ body ++ sNl ++ sFence).data)).filter
                 (fun l => !(fenceChars.isPrefixOf (stripChars l))))
           else stripChars (sFenceJson ++ sNl ++ body ++ sNl ++ sFence).data)
      from rfl]
  rw [hdata, stripChars_wrapped]
  have hpre : fenceChars.isPrefixOf
      (fjChars ++ '\n' :: body.data ++ '\n' :: fenceChars) = true := rfl
  rw [hpre]
  simp only [if_true]
  have hsplit : splitNlChars (fjChars ++ '\n' :: body.data ++ '\n' :: fenceChars)
      = fjChars :: (splitNlChars body.data ++ [fenceChars]) := by
    rw [splitNl_append, splitNl_append,
      show splitNlChars fjChars = [fjChars] from rfl,
      show splitNlChars fenceChars = [fenceChars] from rfl]
    rfl
  rw [hsplit]
  rw [show (fjChars :: (splitNlChars body.data ++ [fenceChars])).filter
        (fun l => !(fenceChars.isPrefixOf (stripChars l)))
      = (splitNlChars body.data ++ [fenceChars]).filter
        (fun l => !(fenceChars.isPrefixOf (stripChars l))) from rfl]
  rw [List.filter_append]
  rw [show ([fenceChars] : List (List Char)).filter
        (fun l => !(fenceChars.isPrefixOf (stripChars l))) = [] from rfl]
  rw [List.filter_eq_self.mpr (by
    intro a ha
    exact List.all_eq_true.mp hlines a ha)]
  rw [List.append_nil, joinNl_splitNl]

theorem checkQuestion_ok (i : Nat) (q : JValue)
    (h : checkQuestion i q = .ok ()) : qOk q = true := by
  unfold checkQuestion at h
  repeat' split at h
  all_goals simp_all [qOk]
  all_goals tauto

theorem checkQuestions_ok (qs : List JValue) :
    ∀ i, checkQuestions i qs = .ok () → qs.all qOk = true := by
  induction qs with
  | nil => intro i _; rfl
  | cons q rest ih =>
    intro i h
    unfold checkQuestions at h
    cases hc : checkQuestion i q with
    | error e => rw [hc] at h; simp at h
    | ok u =>
      rw [hc] at h
      cases u
      simp [List.all_cons, checkQuestion_ok i q hc, ih (i + 1) h]

theorem pyLen_pyElems (v : JValue) (n : Int) (es : List JValue)
    (hn : pyLen v = .ok n) (he : pyElems v = .ok es) :
    (es.length : Int) = n := by
  cases v <;> simp [pyLen, pyElems] at hn he <;> subst hn <;> simp [← he]

theorem validateResp_ok (d : JValue) (h : validateResp d = .ok ()) :
    wellFormedResp d = true := by
  unfold validateResp at h
  cases h1 : pyContains kPreguntas d with
  | error e => rw [h1] at h; simp at h
  | ok b1 =>
    rw [h1] at h
    cases b1
    · simp at h
    · simp only [Bool.not_true, Bool.false_eq_true, if_false] at h
      cases h2 : pyContains kBurla d with
      | error e => rw [h2] at h; simp at h
      | ok b2 =>
        rw [h2] at h
        cases b2
        · simp at h
        · simp only [Bool.not_true, Bool.false_eq_true, if_false] at h
          cases h3 : pyGetItem d kPreguntas with
          | error e => simp only [h3] at h; simp at h
          | ok pregs =>
            simp only [h3] at h
            cases h4 : pyLen pregs with
            | error e => simp only [h4] at h; simp at h
            | ok n =>
              simp only [h4] at h
              by_cases hn3 : n = 3
              · subst hn3
                simp only [show ((3 : Int) == 3) = true from rfl, Bool.not_true,
                  Bool.false_eq_true, if_false] at h
                cases h5 : pyElems pregs with
                | error e => simp only [h5] at h; simp at h
                | ok elems =>
                  simp only [h5] at h
                  have hall := checkQuestions_ok elems 0 h
                  have hlen : (elems.length : Int) = 3 := pyLen_pyElems pregs 3 elems h4 h5
                  unfold wellFormedResp
                  simp only [h1, h2, h3, h4, h5]
                  have hlen3 : elems.length = 3 := by omega
                  simp [hlen3, hall]
              · rw [show (n == 3) = false from by simpa using hn3] at h
                simp at h

theorem parseResponseCore_ok (l : List Char) (data : JValue)
    (h : parseResponseCore l = .ok data) : wellFormedResp data = true := by
  unfold parseResponseCore at h
  cases hj : jsonLoads l with
  | none => rw [hj] at h; simp at h
  | some d0 =>
    simp only [hj] at h
    cases hv : validateResp d0 with
    | error e => rw [hv] at h; simp at h
    | ok u =>
      cases u
      simp only [hv] at h
      cases h
      exact validateResp_ok _ hv

/-- C1 (amended, proved). For every input string `parse_response` either
returns the parsed object with the full schema satisfied — exactly 3
questions, each with 2 or 3 options and an integer correct index strictly
within range, plus the taunt field — or fails with an error; the
enumerated schema violations fail with the assertion message naming the
rule and the question index, while a parsed value whose type does not
support the checks fails with a `TypeError` instead of a validation
error.  It never returns a partially-populated result. -/
theorem parse_response_schema :
    (∀ (text : String) (data : JValue),
        parse_response text = .ok data → wellFormedResp data = true)
    ∧ parse_response cMissingPreguntas = .error (.assertFail mFaltaPreguntas)
    ∧ parse_response cDosRaw = .error (.assertFail (mEsperaban 2))
    ∧ parse_response cCuatroRaw = .error (.assertFail (mEsperaban 4))
    ∧ parse_response cIdxEqRaw = .error (.assertFail (mFueraRango 0))
    ∧ parse_response cNonIntRaw = .error (.assertFail (mEntero 0))
    ∧ parse_response cTop5 = .error .typeError := by
  refine ⟨?_, rfl, rfl, rfl, rfl, rfl, rfl⟩
  intro text data h
  exact parseResponseCore_ok _ data h

/-- C1 counterexample: on the input "5" (JSON for the integer 5) the
evaluation of `"preguntas" in 5` raises a `TypeError` — an error that is
not an assertion failure and carries no rule or question index — so the
claim "fails with a validation error identifying the violated rule and
question index" does not hold of every input. -/
theorem parse_response_not_always_validation_error :
    parse_response cTop5 = .error .typeError
    ∧ isAssertFail .typeError = false
    ∧ PyErr.typeError ≠ .jsonError := ⟨rfl, rfl, fun hc => PyErr.noConfusion hc⟩

/-- C1 witness: the concrete valid response parses and satisfies the
schema predicate. -/
theorem parse_response_schema_witness :
    parse_response cGoodRaw = .ok cGoodVal
    ∧ wellFormedResp cGoodVal = true :=
  ⟨rfl, parse_response_schema.1 cGoodRaw cGoodVal rfl⟩

/-- C7 witness: the concrete valid response wrapped in a leading
"```json" fence line and a trailing "```" fence line parses to the same
result as the unwrapped object. -/
theorem parse_response_strips_fences_witness :
    (splitNlChars cGoodRaw.data).all
        (fun l => !(fenceChars.isPrefixOf (stripChars l))) = true
    ∧ parse_response (sFenceJson ++ sNl ++ cGoodRaw ++ sNl ++ sFence)
      = parseResponseCore cGoodRaw.data
    ∧ parseResponseCore cGoodRaw.data = .ok cGoodVal :=
  ⟨rfl, parse_response_strips_fences cGoodRaw rfl, rfl⟩

/-! ## Print/parse round trip for the serializer -/

theorem wsIndent_all_ws (k : Nat) : ∀ c ∈ wsIndent k, isWsChar c = true := by
  intro c hc
  rcases List.mem_cons.mp hc with h | h
  · subst h; rfl
  · rw [List.eq_of_mem_replicate h]; rfl

theorem skipWs_pre (pre l : List Char) (h : ∀ c ∈ pre, isWsChar c = true) :
    skipWs (pre ++ l) = skipWs l := by
  induction pre with
  | nil => rfl
  | cons c rest ih =>
    rw [List.cons_append]
    show List.dropWhile isWsChar (c :: (rest ++ l)) = _
    rw [List.dropWhile_cons]
    simp only [h c (List.mem_cons_self c rest), if_true]
    exact ih (fun d hd => h d (List.mem_cons_of_mem c hd))

theorem skipWs_cons_neg {c : Char} (l : List Char) (h : isWsChar c = false) :
    skipWs (c :: l) = c :: l := by
  show List.dropWhile isWsChar (c :: l) = c :: l
  rw [List.dropWhile_cons]
  simp [h]

theorem parseVal_pre (f : Nat) (pre l : List Char)
    (h : ∀ c ∈ pre, isWsChar c = true) :
    parseVal f (pre ++ l) = parseVal f l := by
  cases f with
  | zero => rfl
  | succ g =>
    show (match skipWs (pre ++ l) with
          | [] => none
          | c :: rest => _) = _
    rw [skipWs_pre pre l h]
    rfl

theorem parseElems_pre (f : Nat) (pre l : List Char)
    (h : ∀ c ∈ pre, isWsChar c = true) :
    parseElems f (pre ++ l) = parseElems f l := by
  cases f with
  | zero => rfl
  | succ g =>
    show (match parseVal g (pre ++ l) with
          | none => none
          | some (v, r) => _) = _
    rw [parseVal_pre g pre l h]
    rfl

theorem toNat_digitChar (m : Nat) (h : m < 10) :
    (Char.ofNat (48 + m)).toNat = 48 + m := by
  interval_cases m <;> decide

theorem isDigit_digitChar (m : Nat) (h : m < 10) :
    (Char.ofNat (48 + m)).isDigit = true := by
  interval_cases m <;> decide

theorem natChars_digits (n : Nat) : ∀ c ∈ natChars n, c.isDigit = true := by
  induction n using Nat.strong_induction_on with
  | _ n ih =>
    intro c hc
    unfold natChars at hc
    by_cases h : n < 10
    · rw [if_pos h] at hc
      rcases List.mem_singleton.mp hc with rfl
      exact isDigit_digitChar n h
    · rw [if_neg h] at hc
      rcases List.mem_append.mp hc with h2 | h2
      · exact ih (n / 10) (Nat.div_lt_self (by omega) (by omega)) c h2
      · rcases List.mem_singleton.mp h2 with rfl
        exact isDigit_digitChar (n % 10) (Nat.mod_lt _ (by omega))

theorem natChars_cons (n : Nat) :
    ∃ c cs, natChars n = c :: cs ∧ c.isDigit = true := by
  induction n using Nat.strong_induction_on with
  | _ n ih =>
    unfold natChars
    by_cases h : n < 10
    · rw [if_pos h]
      exact ⟨_, _, rfl, isDigit_digitChar n h⟩
    · rw [if_neg h]
      obtain ⟨c, cs, hcs, hd⟩ := ih (n / 10) (Nat.div_lt_self (by omega) (by omega))
      exact ⟨c, cs ++ [Char.ofNat (48 + n % 10)], by rw [hcs]; rfl, hd⟩

theorem natChars_fold (n : Nat) :
    (natChars n).foldl (fun a c => a * 10 + (c.toNat - 48)) 0 = n := by
  induction n using Nat.strong_induction_on with
  | _ n ih =>
    unfold natChars
    by_cases h : n < 10
    · rw [if_pos h]
      show 0 * 10 + ((Char.ofNat (48 + n)).toNat - 48) = n
      rw [toNat_digitChar n h]
      omega
    · rw [if_neg h, List.foldl_append]
      rw [ih (n / 10) (Nat.div_lt_self (by omega) (by omega))]
      show n / 10 * 10 + ((Char.ofNat (48 + n % 10)).toNat - 48) = n
      rw [toNat_digitChar (n % 10) (Nat.mod_lt _ (by omega))]
      omega

theorem takeWhile_append_all (p : Char → Bool) (A B : List Char)
    (h : ∀ c ∈ A, p c = true) :
    (A ++ B).takeWhile p = A ++ B.takeWhile p := by
  induction A with
  | nil => rfl
  | cons c rest ih =>
    rw [List.cons_append, List.takeWhile_cons]
    simp only [h c (List.mem_cons_self c rest), if_true]
    rw [ih (fun d hd => h d (List.mem_cons_of_mem c hd))]
    rfl

theorem dropWhile_append_all (p : Char → Bool) (A B : List Char)
    (h : ∀ c ∈ A, p c = true) :
    (A ++ B).dropWhile p = B.dropWhile p := by
  induction A with
  | nil => rfl
  | cons c rest ih =>
    rw [List.cons_append, List.dropWhile_cons]
    simp only [h c (List.mem_cons_self c rest), if_true]
    exact ih (fun d hd => h d (List.mem_cons_of_mem c hd))

theorem parseDigits_natChars (n : Nat) (rest : List Char) (hsep : sepOk rest) :
    parseDigits (natChars n ++ rest) = some (n, rest) := by
  have htake : (natChars n ++ rest).takeWhile Char.isDigit = natChars n := by
    rw [takeWhile_append_all _ _ _ (natChars_digits n)]
    cases rest with
    | nil => simp
    | cons c t =>
      rw [List.takeWhile_cons]
      simp [(hsep c rfl).1]
  have hdrop : (natChars n ++ rest).dropWhile Char.isDigit = rest := by
    rw [dropWhile_append_all _ _ _ (natChars_digits n)]
    cases rest with
    | nil => rfl
    | cons c t =>
      rw [List.dropWhile_cons]
      simp [(hsep c rfl).1]
  obtain ⟨c0, cs0, hn0, _⟩ := natChars_cons n
  have hne : (natChars n).isEmpty = false := by rw [hn0]; rfl
  unfold parseDigits
  rw [htake, hdrop]
  dsimp only
  rw [hne]
  simp only [Bool.false_eq_true, if_false]
  cases rest with
  | nil => simp [natChars_fold n]
  | cons c t =>
    obtain ⟨hd, h1, h2, h3⟩ := hsep c rfl
    have hmain : (match (c :: t : List Char) with
        | '.' :: _ => none
        | 'e' :: _ => none
        | 'E' :: _ => none
        | _ => some (List.foldl (fun a c => a * 10 + (c.toNat - 48)) 0 (natChars n), c :: t))
        = some (List.foldl (fun a c => a * 10 + (c.toNat - 48)) 0 (natChars n), c :: t) := by
      split
      · next heq => rw [List.cons.injEq] at heq; exact absurd heq.1 h1
      · next heq => rw [List.cons.injEq] at heq; exact absurd heq.1 h2
      · next heq => rw [List.cons.injEq] at heq; exact absurd heq.1 h3
      · rfl
    rw [hmain, natChars_fold n]

theorem parseStrBody_escString (s rest : List Char) :
    parseStrBody (escString s ++ '"' :: rest) = some (s, rest) := by
  induction s with
  | nil =>
    show parseStrBody ('"' :: rest) = some ([], rest)
    unfold parseStrBody
    simp
  | cons c cs ih =>
    show parseStrBody ((escStringChar c ++ escString cs) ++ '"' :: rest) = _
    rw [List.append_assoc]
    unfold escStringChar
    by_cases h1 : c = '"'
    · subst h1; simp only [if_pos rfl]
      show parseStrBody ('\\' :: '"' :: (escString cs ++ '"' :: rest)) = _
      simp [parseStrBody, escChar, ih]
    · rw [if_neg h1]
      by_cases h2 : c = '\\'
      · subst h2; simp only [if_pos rfl]
        show parseStrBody ('\\' :: '\\' :: (escString cs ++ '"' :: rest)) = _
        simp [parseStrBody, escChar, ih]
      · rw [if_neg h2]
        by_cases h3 : c = '\n'
        · subst h3; simp only [if_pos rfl]
          show parseStrBody ('\\' :: 'n' :: (escString cs ++ '"' :: rest)) = _
          simp [parseStrBody, escChar, ih]
        · rw [if_neg h3]
          by_cases h4 : c = '\t'
          · subst h4; simp only [if_pos rfl]
            show parseStrBody ('\\' :: 't' :: (escString cs ++ '"' :: rest)) = _
            simp [parseStrBody, escChar, ih]
          · rw [if_neg h4]
            by_cases h5 : c = '\r'
            · subst h5; simp only [if_pos rfl]
              show parseStrBody ('\\' :: 'r' :: (escString cs ++ '"' :: rest)) = _
              simp [parseStrBody, escChar, ih]
            · rw [if_neg h5]
              by_cases h6 : c = Char.ofNat 8
              · subst h6; simp only [if_pos rfl]
                show parseStrBody ('\\' :: 'b' :: (escString cs ++ '"' :: rest)) = _
                simp [parseStrBody, escChar, ih]
              · rw [if_neg h6]
                by_cases h7 : c = Char.ofNat 12
                · subst h7; simp only [if_pos rfl]
                  show parseStrBody ('\\' :: 'f' :: (escString cs ++ '"' :: rest)) = _
                  simp [parseStrBody, escChar, ih]
                · rw [if_neg h7]
                  show parseStrBody (c :: (escString cs ++ '"' :: rest)) = _
                  unfold parseStrBody
                  rw [if_neg h1, if_neg h2, ih]

/-- The first character of any serialized value: a quote, bracket, brace,
keyword initial, minus sign or digit — never whitespace and never a
closing bracket. -/
theorem dumpVal_cons (ind : Nat) (v : JValue) :
    ∃ c cs, dumpVal ind v = c :: cs
      ∧ isWsChar c = false ∧ c ≠ ']' ∧ c ≠ '}' := by
  cases v with
  | null => exact ⟨'n', _, rfl, by refine ⟨?_, ?_, ?_⟩ <;> decide⟩
  | bool b => cases b with
    | true => exact ⟨'t', _, rfl, by refine ⟨?_, ?_, ?_⟩ <;> decide⟩
    | false => exact ⟨'f', _, rfl, by refine ⟨?_, ?_, ?_⟩ <;> decide⟩
  | int n =>
    show ∃ c cs, intChars n = c :: cs ∧ _
    unfold intChars
    by_cases h : n < 0
    · rw [if_pos h]
      exact ⟨'-', _, rfl, by refine ⟨?_, ?_, ?_⟩ <;> decide⟩
    · rw [if_neg h]
      obtain ⟨c, cs, hc, hd⟩ := natChars_cons n.natAbs
      refine ⟨c, cs, hc, ?_, ?_, ?_⟩
      · by_contra hw
        have hw2 : isWsChar c = true := by
          cases hval : isWsChar c
          · exact absurd hval hw
          · rfl
        simp only [isWsChar, Bool.or_eq_true, beq_iff_eq] at hw2
        rcases hw2 with ((rfl | rfl) | rfl) | rfl <;> simp at hd
      · intro hceq; rw [hceq] at hd; simp at hd
      · intro hceq; rw [hceq] at hd; simp at hd
  | str s => exact ⟨'"', _, rfl, by refine ⟨?_, ?_, ?_⟩ <;> decide⟩
  | arr xs => cases xs with
    | nil => exact ⟨'[', _, rfl, by refine ⟨?_, ?_, ?_⟩ <;> decide⟩
    | cons x t => exact ⟨'[', _, rfl, by refine ⟨?_, ?_, ?_⟩ <;> decide⟩
  | obj fs => cases fs with
    | nil => exact ⟨'{', _, rfl, by refine ⟨?_, ?_, ?_⟩ <;> decide⟩
    | cons p t =>
      obtain ⟨k, v2⟩ := p
      exact ⟨'{', _, rfl, by refine ⟨?_, ?_, ?_⟩ <;> decide⟩

theorem isDigit_not_ws {c : Char} (hd : c.isDigit = true) : isWsChar c = false := by
  cases hval : isWsChar c
  · rfl
  · simp only [isWsChar, Bool.or_eq_true, beq_iff_eq] at hval
    rcases hval with ((rfl | rfl) | rfl) | rfl <;> simp at hd

theorem string_mk_data (s : String) : String.mk s.data = s := rfl

theorem parseVal_int (f : Nat) (n : Int) (rest : List Char) (hf : 1 ≤ f)
    (hsep : sepOk rest) :
    parseVal f (intChars n ++ rest) = some (.int n, rest) := by
  obtain ⟨g, rfl⟩ : ∃ g, f = g + 1 := ⟨f - 1, by omega⟩
  unfold intChars
  by_cases h : n < 0
  · rw [if_pos h, List.cons_append]
    rw [show parseVal (g + 1) ('-' :: (natChars n.natAbs ++ rest))
        = (match parseDigits (natChars n.natAbs ++ rest) with
           | none => none
           | some (m, r) => some (.int (-(m : Int)), r)) from rfl]
    simp only [parseDigits_natChars _ _ hsep]
    have hn : -((n.natAbs : Nat) : Int) = n := by omega
    rw [hn]
  · rw [if_neg h]
    obtain ⟨c, cs, hc, hd⟩ := natChars_cons n.natAbs
    rw [hc, List.cons_append]
    have hne1 : ¬(c = '"') := fun hx => by rw [hx] at hd; simp at hd
    have hne2 : ¬(c = '{') := fun hx => by rw [hx] at hd; simp at hd
    have hne3 : ¬(c = '[') := fun hx => by rw [hx] at hd; simp at hd
    have hne4 : ¬(c = 't') := fun hx => by rw [hx] at hd; simp at hd
    have hne5 : ¬(c = 'f') := fun hx => by rw [hx] at hd; simp at hd
    have hne6 : ¬(c = 'n') := fun hx => by rw [hx] at hd; simp at hd
    have hne7 : ¬(c = '-') := fun hx => by rw [hx] at hd; simp at hd
    show (match skipWs (c :: (cs ++ rest)) with
          | [] => none
          | c' :: rest' =>
            if c' = '"' then
              match parseStrBody rest' with
              | none => none
              | some (s, r) => some (JValue.str (String.mk s), r)
            else if c' = '{' then
              match skipWs rest' with
              | '}' :: r => some (JValue.obj [], r)
              | l2 =>
                match parseFields g l2 with
                | none => none
                | some (fs, r) => some (JValue.obj (dedupFields fs), r)
            else if c' = '[' then
              match skipWs rest' with
              | ']' :: r => some (JValue.arr [], r)
              | l2 =>
                match parseElems g l2 with
                | none => none
                | some (vs, r) => some (JValue.arr vs, r)
            else if c' = 't' then
              if kwTrueTail.isPrefixOf rest' then some (JValue.bool true, rest'.drop 3) else none
            else if c' = 'f' then
              if kwFalseTail.isPrefixOf rest' then some (JValue.bool false, rest'.drop 4) else none
            else if c' = 'n' then
              if kwNullTail.isPrefixOf rest' then some (JValue.null, rest'.drop 3) else none
            else if c' = '-' then
              match parseDigits rest' with
              | none => none
              | some (m, r) => some (JValue.int (-(m : Int)), r)
            else if c'.isDigit then
              match parseDigits (c' :: rest') with
              | none => none
              | some (m, r) => some (JValue.int (m : Int), r)
            else none) = some (JValue.int n, rest)
    rw [skipWs_cons_neg _ (isDigit_not_ws hd)]
    dsimp only
    rw [if_neg hne1, if_neg hne2, if_neg hne3, if_neg hne4, if_neg hne5,
      if_neg hne6, if_neg hne7, if_pos hd]
    rw [show (c :: (cs ++ rest)) = natChars n.natAbs ++ rest from by rw [hc]; rfl]
    simp only [parseDigits_natChars _ _ hsep]
    have hn : ((n.natAbs : Nat) : Int) = n := by omega
    rw [hn]

theorem parseVal_str (f : Nat) (s : String) (rest : List Char) (hf : 1 ≤ f) :
    parseVal f (('"' :: (escString s.data ++ ['"'])) ++ rest)
      = some (.str s, rest) := by
  obtain ⟨g, rfl⟩ : ∃ g, f = g + 1 := ⟨f - 1, by omega⟩
  rw [List.cons_append, List.append_assoc, List.singleton_append]
  rw [show parseVal (g + 1) ('"' :: (escString s.data ++ '"' :: rest))
      = (match parseStrBody (escString s.data ++ '"' :: rest) with
         | none => none
         | some (s', r) => some (.str (String.mk s'), r)) from rfl]
  simp only [parseStrBody_escString, string_mk_data]

theorem foldl_objInsert_fresh (fs : List (String × JValue)) :
    ∀ acc : List (String × JValue),
      (∀ p ∈ fs, acc.any (fun q => q.1 == p.1) = false) →
      wfFields fs = true →
      fs.foldl (fun a p => objInsert a p.1 p.2) acc = acc ++ fs := by
  induction fs with
  | nil => intro acc _ _; simp
  | cons p rest ih =>
    intro acc hacc hwf
    obtain ⟨k, v⟩ := p
    rw [List.foldl_cons]
    have hk : acc.any (fun q => q.1 == k) = false :=
      hacc (k, v) (List.mem_cons_self _ _)
    have hins : objInsert acc k v = acc ++ [(k, v)] := by
      unfold objInsert
      rw [hk]
      simp
    rw [hins]
    unfold wfFields at hwf
    rw [Bool.and_eq_true, Bool.and_eq_true] at hwf
    obtain ⟨⟨hnodup, _⟩, hwfrest⟩ := hwf
    rw [ih (acc ++ [(k, v)]) ?_ hwfrest]
    · rw [List.append_assoc]
      rfl
    · intro q hq
      rw [List.any_append]
      rw [hacc q (List.mem_cons_of_mem _ hq)]
      simp only [Bool.false_or, List.any_cons, List.any_nil, Bool.or_false]
      rw [Bool.not_eq_true'] at hnodup
      rw [beq_eq_false_iff_ne, ne_eq]
      intro hcontra
      have hany : rest.any (fun p => p.1 == k) = true := by
        rw [List.any_eq_true]
        exact ⟨q, hq, by rw [beq_iff_eq]; exact hcontra.symm⟩
      rw [hany] at hnodup
      exact Bool.noConfusion hnodup

theorem dedupFields_eq_self (fs : List (String × JValue))
    (h : wfFields fs = true) : dedupFields fs = fs := by
  unfold dedupFields
  rw [foldl_objInsert_fresh fs [] (fun p _ => rfl) h]
  rfl

theorem parseVal_bracket (g : Nat) (T : List Char) :
    parseVal (g + 1) ('[' :: T)
      = (match skipWs T with
         | ']' :: r => some (JValue.arr [], r)
         | l2 =>
           match parseElems g l2 with
           | none => none
           | some (vs, r) => some (JValue.arr vs, r)) := rfl

theorem parseVal_brace (g : Nat) (T : List Char) :
    parseVal (g + 1) ('{' :: T)
      = (match skipWs T with
         | '}' :: r => some (JValue.obj [], r)
         | l2 =>
           match parseFields g l2 with
           | none => none
           | some (fs, r) => some (JValue.obj (dedupFields fs), r)) := rfl

theorem parseElems_eq (g : Nat) (l : List Char) :
    parseElems (g + 1) l
      = (match parseVal g l with
         | none => none
         | some (v, r) =>
           match skipWs r with
           | ',' :: r2 =>
             match parseElems g r2 with
             | none => none
             | some (vs, r3) => some (v :: vs, r3)
           | ']' :: r2 => some ([v], r2)
           | _ => none) := rfl

theorem parseFields_quote (g : Nat) (T : List Char) :
    parseFields (g + 1) ('"' :: T)
      = (match parseStrBody T with
         | none => none
         | some (k, r) =>
           match skipWs r with
           | ':' :: r2 =>
             match parseVal g r2 with
             | none => none
             | some (v, r3) =>
               match skipWs r3 with
               | ',' :: r4 =>
                 (match parseFields g (skipWs r4) with
                  | none => none
                  | some (fs, r5) => some ((String.mk k, v) :: fs, r5))
               | '}' :: r4 => some ([(String.mk k, v)], r4)
               | _ => none
           | _ => none) := rfl

theorem sepOk_cons_of (c : Char) (l : List Char) (h1 : c.isDigit = false)
    (h2 : c ≠ '.') (h3 : c ≠ 'e') (h4 : c ≠ 'E') : sepOk (c :: l) := by
  intro d hd
  have : c = d := by
    have : some c = some d := hd
    exact Option.some.inj this
  subst this
  exact ⟨h1, h2, h3, h4⟩

theorem sepOk_wsIndent (j : Nat) (l : List Char) : sepOk (wsIndent j ++ l) :=
  sepOk_cons_of '\n' _ (by decide) (by decide) (by decide) (by decide)

theorem sepOk_comma (l : List Char) : sepOk (',' :: l) :=
  sepOk_cons_of ',' _ (by decide) (by decide) (by decide) (by decide)

theorem jfuelT_pos (v : JValue) : 1 ≤ jfuelT v := by
  cases v <;> simp [jfuelT]

theorem parseVal_nullKw (g : Nat) (rest : List Char) :
    parseVal (g + 1) (nullChars ++ rest) = some (.null, rest) := by
  have hpre : kwNullTail.isPrefixOf ('u' :: ('l' :: ('l' :: rest))) = true := by
    simp [kwNullTail, List.isPrefixOf]
  rw [show parseVal (g + 1) (nullChars ++ rest)
      = (if kwNullTail.isPrefixOf ('u' :: ('l' :: ('l' :: rest)))
         then some (JValue.null, ('u' :: ('l' :: ('l' :: rest))).drop 3)
         else none) from rfl]
  rw [hpre]
  simp

theorem parseVal_trueKw (g : Nat) (rest : List Char) :
    parseVal (g + 1) (trueChars ++ rest) = some (.bool true, rest) := by
  have hpre : kwTrueTail.isPrefixOf ('r' :: ('u' :: ('e' :: rest))) = true := by
    simp [kwTrueTail, List.isPrefixOf]
  rw [show parseVal (g + 1) (trueChars ++ rest)
      = (if kwTrueTail.isPrefixOf ('r' :: ('u' :: ('e' :: rest)))
         then some (JValue.bool true, ('r' :: ('u' :: ('e' :: rest))).drop 3)
         else none) from rfl]
  rw [hpre]
  simp

theorem parseVal_falseKw (g : Nat) (rest : List Char) :
    parseVal (g + 1) (falseChars ++ rest) = some (.bool false, rest) := by
  have hpre : kwFalseTail.isPrefixOf ('a' :: ('l' :: ('s' :: ('e' :: rest)))) = true := by
    simp [kwFalseTail, List.isPrefixOf]
  rw [show parseVal (g + 1) (falseChars ++ rest)
      = (if kwFalseTail.isPrefixOf ('a' :: ('l' :: ('s' :: ('e' :: rest))))
         then some (JValue.bool false, ('a' :: ('l' :: ('s' :: ('e' :: rest)))).drop 4)
         else none) from rfl]
  rw [hpre]
  simp

set_option maxHeartbeats 2000000 in
mutual

/-- The print/parse round trip: `parseVal` reads back exactly the value
`dumpVal` wrote, leaving the trailing input untouched. -/
theorem parseVal_dump (v : JValue) (ind : Nat) (rest : List Char) (f : Nat)
    (hwf : wfJ v = true) (hf : jfuelT v ≤ f) (hsep : sepOk rest) :
    parseVal f (dumpVal ind v ++ rest) = some (v, rest) := by
  obtain ⟨g, rfl⟩ : ∃ g, f = g + 1 :=
    ⟨f - 1, by have := jfuelT_pos v; omega⟩
  cases v with
  | null => exact parseVal_nullKw g rest
  | bool b =>
    cases b
    · exact parseVal_falseKw g rest
    · exact parseVal_trueKw g rest
  | int n => exact parseVal_int (g + 1) n rest (by omega) hsep
  | str s => exact parseVal_str (g + 1) s rest (by omega)
  | arr xs =>
    cases xs with
    | nil => exact rfl
    | cons x xs =>
      have hshape : dumpVal ind (.arr (x :: xs)) ++ rest
          = '[' :: (wsIndent (ind + 2) ++ (dumpVal (ind + 2) x
            ++ (dumpElemsTail (ind + 2) xs ++ (wsIndent ind ++ (']' :: rest))))) := by
        show ('[' :: (wsIndent (ind + 2) ++ (dumpVal (ind + 2) x
            ++ (dumpElemsTail (ind + 2) xs ++ (wsIndent ind ++ [']']))))) ++ rest = _
        simp [List.append_assoc]
      rw [hshape, parseVal_bracket]
      rw [skipWs_pre _ _ (wsIndent_all_ws _)]
      obtain ⟨c, cs, hc, hcw, hcr, hcb⟩ := dumpVal_cons (ind + 2) x
      rw [hc, List.cons_append, skipWs_cons_neg _ hcw]
      split
      · next heq => rw [List.cons.injEq] at heq; exact absurd heq.1 hcr
      rw [← List.cons_append, ← hc]
      have hwf2 : wfElems (x :: xs) = true := hwf
      have hf2 : jfuelTElems (x :: xs) ≤ g := by
        have : jfuelT (JValue.arr (x :: xs)) = 1 + jfuelTElems (x :: xs) := rfl
        omega
      rw [parseElems_dump x xs (ind + 2) ind rest g hwf2 hf2]
  | obj fs =>
    cases fs with
    | nil => exact rfl
    | cons p fs =>
      obtain ⟨k, v2⟩ := p
      have hshape : dumpVal ind (.obj ((k, v2) :: fs)) ++ rest
          = '{' :: (wsIndent (ind + 2) ++ (dumpKey k ++ (dumpVal (ind + 2) v2
            ++ (dumpFieldsTail (ind + 2) fs ++ (wsIndent ind ++ ('}' :: rest)))))) := by
        show ('{' :: (wsIndent (ind + 2) ++ (dumpKey k ++ (dumpVal (ind + 2) v2
            ++ (dumpFieldsTail (ind + 2) fs ++ (wsIndent ind ++ ['}'])))))) ++ rest = _
        simp [List.append_assoc]
      rw [hshape, parseVal_brace]
      rw [skipWs_pre _ _ (wsIndent_all_ws _)]
      rw [show dumpKey k ++ (dumpVal (ind + 2) v2
            ++ (dumpFieldsTail (ind + 2) fs ++ (wsIndent ind ++ ('}' :: rest))))
          = '"' :: ((escString k.data ++ ['"', ':', ' ']) ++ (dumpVal (ind + 2) v2
            ++ (dumpFieldsTail (ind + 2) fs ++ (wsIndent ind ++ ('}' :: rest)))))
          from by rw [dumpKey]; rfl]
      rw [skipWs_cons_neg _ (by decide)]
      split
      · next heq => rw [List.cons.injEq] at heq; exact absurd heq.1 (by decide)
      rw [show ('"' :: ((escString k.data ++ ['"', ':', ' '])
              ++ (dumpVal (ind + 2) v2 ++ (dumpFieldsTail (ind + 2) fs
                ++ (wsIndent ind ++ ('}' :: rest))))))
          = dumpKey k ++ (dumpVal (ind + 2) v2 ++ (dumpFieldsTail (ind + 2) fs
              ++ (wsIndent ind ++ ('}' :: rest))))
          from by rw [dumpKey]; rfl]
      have hwf2 : wfFields ((k, v2) :: fs) = true := hwf
      have hf2 : jfuelTFields ((k, v2) :: fs) ≤ g := by
        have : jfuelT (JValue.obj ((k, v2) :: fs))
            = 1 + jfuelTFields ((k, v2) :: fs) := rfl
        omega
      rw [parseFields_dump k v2 fs (ind + 2) ind rest g hwf2 hf2]
      dsimp only
      rw [dedupFields_eq_self _ hwf2]
termination_by f
decreasing_by all_goals omega

/-- Round trip for the element list of a non-empty array. -/
theorem parseElems_dump (x : JValue) (xs : List JValue) (ind j : Nat)
    (rest : List Char) (f : Nat)
    (hwf : wfElems (x :: xs) = true) (hf : jfuelTElems (x :: xs) ≤ f) :
    parseElems f (dumpVal ind x
        ++ (dumpElemsTail ind xs ++ (wsIndent j ++ (']' :: rest))))
      = some (x :: xs, rest) := by
  obtain ⟨g, rfl⟩ : ∃ g, f = g + 1 := ⟨f - 1, by
    have : jfuelTElems (x :: xs) = 1 + jfuelT x + jfuelTElems xs := rfl
    omega⟩
  have hwfx : wfJ x = true := by
    have : wfElems (x :: xs) = (wfJ x && wfElems xs) := rfl
    rw [this, Bool.and_eq_true] at hwf
    exact hwf.1
  have hwfxs : wfElems xs = true := by
    have : wfElems (x :: xs) = (wfJ x && wfElems xs) := rfl
    rw [this, Bool.and_eq_true] at hwf
    exact hwf.2
  have hfx : jfuelT x ≤ g := by
    have : jfuelTElems (x :: xs) = 1 + jfuelT x + jfuelTElems xs := rfl
    omega
  rw [parseElems_eq]
  cases xs with
  | nil =>
    rw [show dumpElemsTail ind ([] : List JValue)
          ++ (wsIndent j ++ (']' :: rest)) = wsIndent j ++ (']' :: rest)
        from rfl]
    rw [parseVal_dump x ind _ g hwfx hfx (sepOk_wsIndent j _)]
    dsimp only
    rw [skipWs_pre _ _ (wsIndent_all_ws _), skipWs_cons_neg _ (by decide)]
    split
    · next heq => rw [List.cons.injEq] at heq; exact absurd heq.1 (by decide)
    · next heq =>
      rw [List.cons.injEq] at heq
      rw [heq.2]
    · next h1 h2 => exact absurd rfl (h2 rest)
  | cons y ys =>
    rw [show dumpElemsTail ind (y :: ys) ++ (wsIndent j ++ (']' :: rest))
          = ',' :: ((wsIndent ind ++ (dumpVal ind y ++ dumpElemsTail ind ys))
            ++ (wsIndent j ++ (']' :: rest))) from rfl]
    rw [parseVal_dump x ind _ g hwfx hfx (sepOk_comma _)]
    dsimp only
    rw [skipWs_cons_neg _ (by decide)]
    have hfys : jfuelTElems (y :: ys) ≤ g := by
      have h1 : jfuelTElems (x :: y :: ys)
          = 1 + jfuelT x + jfuelTElems (y :: ys) := rfl
      omega
    split
    · next r2 heq =>
      rw [List.cons.injEq] at heq
      rw [← heq.2]
      rw [show (wsIndent ind ++ (dumpVal ind y ++ dumpElemsTail ind ys))
            ++ (wsIndent j ++ (']' :: rest))
          = wsIndent ind ++ (dumpVal ind y
            ++ (dumpElemsTail ind ys ++ (wsIndent j ++ (']' :: rest))))
          from by simp [List.append_assoc]]
      rw [parseElems_pre _ _ _ (wsIndent_all_ws _)]
      rw [parseElems_dump y ys ind j rest g hwfxs hfys]
    · next heq => rw [List.cons.injEq] at heq; exact absurd heq.1 (by decide)
    · next h1 h2 => exact absurd rfl (h1 ((wsIndent ind
        ++ (dumpVal ind y ++ dumpElemsTail ind ys)) ++ (wsIndent j ++ (']' :: rest))))
termination_by f
decreasing_by all_goals omega

/-- Round trip for the member list of a non-empty object. -/
theorem parseFields_dump (k : String) (v : JValue)
    (fs : List (String × JValue)) (ind j : Nat) (rest : List Char) (f : Nat)
    (hwf : wfFields ((k, v) :: fs) = true)
    (hf : jfuelTFields ((k, v) :: fs) ≤ f) :
    parseFields f (dumpKey k ++ (dumpVal ind v
        ++ (dumpFieldsTail ind fs ++ (wsIndent j ++ ('}' :: rest)))))
      = some ((k, v) :: fs, rest) := by
  obtain ⟨g, rfl⟩ : ∃ g, f = g + 1 := ⟨f - 1, by
    have : jfuelTFields ((k, v) :: fs) = 1 + jfuelT v + jfuelTFields fs := rfl
    omega⟩
  have hwfv : wfJ v = true := by
    have heq : wfFields ((k, v) :: fs)
        = (!(fs.any (fun p => p.1 == k)) && wfJ v && wfFields fs) := rfl
    rw [heq, Bool.and_eq_true, Bool.and_eq_true] at hwf
    exact hwf.1.2
  have hwffs : wfFields fs = true := by
    have heq : wfFields ((k, v) :: fs)
        = (!(fs.any (fun p => p.1 == k)) && wfJ v && wfFields fs) := rfl
    rw [heq, Bool.and_eq_true] at hwf
    exact hwf.2
  have hfv : jfuelT v ≤ g := by
    have : jfuelTFields ((k, v) :: fs) = 1 + jfuelT v + jfuelTFields fs := rfl
    omega
  rw [show dumpKey k ++ (dumpVal ind v
        ++ (dumpFieldsTail ind fs ++ (wsIndent j ++ ('}' :: rest))))
      = '"' :: (escString k.data ++ ('"' :: (':' :: (' ' :: (dumpVal ind v
        ++ (dumpFieldsTail ind fs ++ (wsIndent j ++ ('}' :: rest))))))))
      from by rw [dumpKey]; simp [List.append_assoc]]
  rw [parseFields_quote]
  rw [parseStrBody_escString]
  dsimp only
  rw [skipWs_cons_neg _ (by decide)]
  rw [show (' ' :: (dumpVal ind v
        ++ (dumpFieldsTail ind fs ++ (wsIndent j ++ ('}' :: rest)))))
      = [' '] ++ (dumpVal ind v
        ++ (dumpFieldsTail ind fs ++ (wsIndent j ++ ('}' :: rest)))) from rfl]
  split
  · next r2 heq =>
    rw [List.cons.injEq] at heq
    rw [← heq.2]
    rw [parseVal_pre _ _ _ (by intro c hc; rcases List.mem_singleton.mp hc with rfl; rfl)]
    cases fs with
    | nil =>
      rw [show dumpFieldsTail ind ([] : List (String × JValue))
            ++ (wsIndent j ++ ('}' :: rest)) = wsIndent j ++ ('}' :: rest)
          from rfl]
      rw [parseVal_dump v ind _ g hwfv hfv (sepOk_wsIndent j _)]
      dsimp only
      rw [skipWs_pre _ _ (wsIndent_all_ws _), skipWs_cons_neg _ (by decide)]
      split
      · next heq2 => rw [List.cons.injEq] at heq2; exact absurd heq2.1 (by decide)
      · next heq2 =>
        rw [List.cons.injEq] at heq2
        rw [← heq2.2]
      · next h1 h2 => exact absurd rfl (h2 rest)
    | cons p fs2 =>
      obtain ⟨k2, v2⟩ := p
      rw [show dumpFieldsTail ind ((k2, v2) :: fs2) ++ (wsIndent j ++ ('}' :: rest))
            = ',' :: ((wsIndent ind ++ (dumpKey k2
              ++ (dumpVal ind v2 ++ dumpFieldsTail ind fs2)))
              ++ (wsIndent j ++ ('}' :: rest))) from rfl]
      rw [parseVal_dump v ind _ g hwfv hfv (sepOk_comma _)]
      dsimp only
      rw [skipWs_cons_neg _ (by decide)]
      have hffs2 : jfuelTFields ((k2, v2) :: fs2) ≤ g := by
        have h1 : jfuelTFields ((k, v) :: (k2, v2) :: fs2)
            = 1 + jfuelT v + jfuelTFields ((k2, v2) :: fs2) := rfl
        omega
      split
      · next r4 heq2 =>
        rw [List.cons.injEq] at heq2
        rw [← heq2.2]
        rw [show skipWs ((wsIndent ind ++ (dumpKey k2
              ++ (dumpVal ind v2 ++ dumpFieldsTail ind fs2)))
              ++ (wsIndent j ++ ('}' :: rest)))
            = dumpKey k2 ++ (dumpVal ind v2
              ++ (dumpFieldsTail ind fs2 ++ (wsIndent j ++ ('}' :: rest))))
            from by
          rw [show (wsIndent ind ++ (dumpKey k2
                ++ (dumpVal ind v2 ++ dumpFieldsTail ind fs2)))
                ++ (wsIndent j ++ ('}' :: rest))
              = wsIndent ind ++ (dumpKey k2 ++ (dumpVal ind v2
                ++ (dumpFieldsTail ind fs2 ++ (wsIndent j ++ ('}' :: rest)))))
              from by simp [List.append_assoc]]
          rw [skipWs_pre _ _ (wsIndent_all_ws _)]
          rw [show dumpKey k2 ++ (dumpVal ind v2
                ++ (dumpFieldsTail ind fs2 ++ (wsIndent j ++ ('}' :: rest))))
              = '"' :: ((escString k2.data ++ ['"', ':', ' ']) ++ (dumpVal ind v2
                ++ (dumpFieldsTail ind fs2 ++ (wsIndent j ++ ('}' :: rest)))))
              from by rw [dumpKey]; rfl]
          rw [skipWs_cons_neg _ (by decide)]]
        rw [parseFields_dump k2 v2 fs2 ind j rest g hwffs hffs2]
      · next heq2 => rw [List.cons.injEq] at heq2; exact absurd heq2.1 (by decide)
      · next h1 h2 => exact absurd rfl (h1 _)
  · next h => exact absurd rfl (h _)
termination_by f
decreasing_by all_goals omega

end

/-! ## Fuel bound: the serialized text is long enough to parse itself -/

/-- `natChars` always produces at least one digit. -/
theorem natChars_length_pos (n : Nat) : 0 < (natChars n).length := by
  rw [natChars]
  split
  · simp
  · simp

mutual

/-- A value's parse fuel is at most the length of its serialization. -/
theorem jfuelT_le_dump (v : JValue) (ind : Nat) :
    jfuelT v ≤ (dumpVal ind v).length := by
  cases v with
  | null => simp [jfuelT, dumpVal, nullChars]
  | bool b => cases b <;> simp [jfuelT, dumpVal, trueChars, falseChars]
  | int n =>
    have h := natChars_length_pos n.natAbs
    rw [show jfuelT (JValue.int n) = 1 from rfl]
    rw [show dumpVal ind (JValue.int n) = intChars n from rfl]
    rw [intChars]
    split <;> simp <;> omega
  | str s =>
    rw [show jfuelT (JValue.str s) = 1 from rfl]
    rw [show dumpVal ind (JValue.str s)
        = '"' :: (escString s.data ++ ['"']) from rfl]
    simp
  | arr xs =>
    cases xs with
    | nil =>
      rw [show jfuelT (JValue.arr []) = 2 from rfl]
      rw [show dumpVal ind (JValue.arr []) = ['[', ']'] from rfl]
      simp
    | cons x xs2 =>
      have h := jfuelTElems_le_dump x xs2 (ind + 2)
      rw [show jfuelT (JValue.arr (x :: xs2))
          = 1 + jfuelTElems (x :: xs2) from rfl]
      rw [show dumpVal ind (JValue.arr (x :: xs2))
          = '[' :: (wsIndent (ind + 2) ++ (dumpVal (ind + 2) x
            ++ (dumpElemsTail (ind + 2) xs2 ++ (wsIndent ind ++ [']']))))
          from rfl]
      simp [wsIndent]
      omega
  | obj fs =>
    cases fs with
    | nil =>
      rw [show jfuelT (JValue.obj []) = 2 from rfl]
      rw [show dumpVal ind (JValue.obj []) = ['{', '}'] from rfl]
      simp
    | cons p fs2 =>
      obtain ⟨k, v2⟩ := p
      have h := jfuelTFields_le_dump k v2 fs2 (ind + 2)
      rw [show jfuelT (JValue.obj ((k, v2) :: fs2))
          = 1 + jfuelTFields ((k, v2) :: fs2) from rfl]
      rw [show dumpVal ind (JValue.obj ((k, v2) :: fs2))
          = '{' :: (wsIndent (ind + 2) ++ (dumpKey k ++ (dumpVal (ind + 2) v2
            ++ (dumpFieldsTail (ind + 2) fs2 ++ (wsIndent ind ++ ['}'])))))
          from rfl]
      simp [wsIndent, dumpKey]
      omega
termination_by sizeOf v
decreasing_by all_goals simp_wf <;> omega

/-- Fuel bound for a non-empty element list. -/
theorem jfuelTElems_le_dump (x : JValue) (xs : List JValue) (ind : Nat) :
    jfuelTElems (x :: xs)
      ≤ (dumpVal ind x).length + (dumpElemsTail ind xs).length + 2 := by
  have hx := jfuelT_le_dump x ind
  cases xs with
  | nil =>
    rw [show jfuelTElems (x :: ([] : List JValue)) = 1 + jfuelT x + 1 from rfl]
    rw [show dumpElemsTail ind ([] : List JValue) = [] from rfl]
    simp
    omega
  | cons y ys =>
    have h2 := jfuelTElems_le_dump y ys ind
    rw [show jfuelTElems (x :: y :: ys)
        = 1 + jfuelT x + jfuelTElems (y :: ys) from rfl]
    rw [show dumpElemsTail ind (y :: ys)
        = ',' :: (wsIndent ind ++ (dumpVal ind y ++ dumpElemsTail ind ys))
        from rfl]
    simp [wsIndent]
    omega
termination_by 1 + sizeOf x + sizeOf xs
decreasing_by all_goals simp_wf <;> omega

/-- Fuel bound for a non-empty member list. -/
theorem jfuelTFields_le_dump (k : String) (v : JValue)
    (fs : List (String × JValue)) (ind : Nat) :
    jfuelTFields ((k, v) :: fs)
      ≤ (dumpVal ind v).length + (dumpFieldsTail ind fs).length + 2 := by
  have hv := jfuelT_le_dump v ind
  cases fs with
  | nil =>
    rw [show jfuelTFields ((k, v) :: ([] : List (String × JValue)))
        = 1 + jfuelT v + 1 from rfl]
    rw [show dumpFieldsTail ind ([] : List (String × JValue)) = [] from rfl]
    simp
    omega
  | cons p fs2 =>
    obtain ⟨k2, v2⟩ := p
    have h2 := jfuelTFields_le_dump k2 v2 fs2 ind
    rw [show jfuelTFields ((k, v) :: (k2, v2) :: fs2)
        = 1 + jfuelT v + jfuelTFields ((k2, v2) :: fs2) from rfl]
    rw [show dumpFieldsTail ind ((k2, v2) :: fs2)
        = ',' :: (wsIndent ind
          ++ (dumpKey k2 ++ (dumpVal ind v2 ++ dumpFieldsTail ind fs2)))
        from rfl]
    simp [wsIndent, dumpKey]
    omega
termination_by 1 + sizeOf v + sizeOf fs
decreasing_by all_goals simp_wf <;> omega

end

/-! ## `json.load` after `json.dump`: the store round trip -/

theorem sepOk_nil : sepOk ([] : List Char) := by
  intro c hc
  simp at hc

/-- `json.loads` with the fuel `jsonLoads` allots reads back exactly the
document `json.dump` serialized. -/
theorem jsonLoads_dumpTop (data : List JValue) (hwf : wfJ (.arr data) = true) :
    jsonLoads (dumpTop data) = some (.arr data) := by
  have h := jfuelT_le_dump (.arr data) 0
  have hb : jfuelT (.arr data) ≤ 2 * (dumpTop data).length + 8 := by
    rw [show dumpTop data = dumpVal 0 (JValue.arr data) from rfl]
    omega
  have hp : parseVal (2 * (dumpTop data).length + 8)
      (dumpVal 0 (JValue.arr data) ++ []) = some (.arr data, []) :=
    parseVal_dump (.arr data) 0 [] _ hwf hb sepOk_nil
  rw [List.append_nil] at hp
  rw [show jsonLoads (dumpTop data)
      = (match parseVal (2 * (dumpTop data).length + 8)
               (dumpVal 0 (JValue.arr data)) with
         | none => none
         | some (v, r) => if (skipWs r).isEmpty then some v else none)
      from rfl]
  rw [hp]
  rfl

/-- Loading the file `save_historial` wrote parses back the saved list. -/
theorem load_historial_save (l : List JValue) (hwf : wfJ (.arr l) = true) :
    load_historial (save_historial l) = .ok (.arr l) := by
  rw [show load_historial (save_historial l)
      = (match jsonLoads (dumpTop l) with
         | some v => Except.ok v
         | none => Except.error PyErr.jsonError) from rfl]
  rw [jsonLoads_dumpTop l hwf]

/-! ## The records the script writes have well-formed (nodup-key) objects -/

theorem wfElems_map_str (l : List String) :
    wfElems (l.map JValue.str) = true := by
  induction l with
  | nil => rfl
  | cons s t ih =>
    show (wfJ (JValue.str s) && wfElems (t.map JValue.str)) = true
    rw [ih]
    rfl

theorem wfJ_encodePregunta (q : Pregunta) :
    wfJ (encodePregunta q) = true := by
  simp [encodePregunta, wfJ, wfFields, wfElems_map_str,
    kPregunta, kOpciones, kRespuesta]

theorem wfElems_map_encodePregunta (l : List Pregunta) :
    wfElems (l.map encodePregunta) = true := by
  induction l with
  | nil => rfl
  | cons q t ih =>
    show (wfJ (encodePregunta q) && wfElems (t.map encodePregunta)) = true
    rw [ih, wfJ_encodePregunta]
    rfl

theorem wfJ_encodeRecord (r : HistoryRecord) :
    wfJ (encodeRecord r) = true := by
  simp [encodeRecord, wfJ, wfFields, wfElems_map_encodePregunta,
    kDia, kFecha, kPreguntas, kBurla]

theorem wfElems_map_encodeRecord (hs : List HistoryRecord) :
    wfElems (hs.map encodeRecord) = true := by
  induction hs with
  | nil => rfl
  | cons a t ih =>
    show (wfJ (encodeRecord a) && wfElems (t.map encodeRecord)) = true
    rw [ih, wfJ_encodeRecord]
    rfl

theorem wfJ_arr_encodeRecord (hs : List HistoryRecord) :
    wfJ (.arr (hs.map encodeRecord)) = true :=
  wfElems_map_encodeRecord hs

/-- C6 (confirmed). Saving a history and loading it back yields exactly the
sequence saved: `json.dump` writes the indent-2 serialization and
`json.load` parses that text back to the same document, for every list of
values whose objects have pairwise-distinct keys (every Python dict does),
and in particular for every typed history the script writes, which also
decodes back field-for-field. -/
theorem save_load_roundtrip :
    (∀ l : List JValue, wfJ (.arr l) = true →
        load_historial (save_historial l) = .ok (.arr l))
    ∧ ∀ hs : List HistoryRecord,
        load_historial (save_historial (hs.map encodeRecord))
          = .ok (.arr (hs.map encodeRecord))
        ∧ decodeHistorial (.arr (hs.map encodeRecord)) = some hs := by
  constructor
  · intro l hwf
    exact load_historial_save l hwf
  · intro hs
    refine ⟨load_historial_save _ (wfJ_arr_encodeRecord hs), ?_⟩
    show mapOpt decodeRecord (hs.map encodeRecord) = some hs
    induction hs with
    | nil => rfl
    | cons a t ih => simp [mapOpt, decodeRecord_encode, ih]

/-! ## C3: the save is not an atomic temp-file swap -/

/-- C3 counterexample. At the concrete prior state "file holding the
serialized empty list" and data `[]`, the truncated intermediate state of
`save_historial` is neither the prior state nor the completed one: the
save is not atomic. -/
theorem save_historial_not_atomic :
    FileState.file [] ∈ save_historial_states (save_historial []) []
    ∧ ¬ AtomicSave (save_historial []) [] := by
  refine ⟨by simp [save_historial_states], ?_⟩
  intro h
  have h2 := h (.file []) (by simp [save_historial_states])
  rcases h2 with h2 | h2 <;>
    (rw [show save_historial ([] : List JValue)
        = FileState.file (dumpTop []) from rfl] at h2;
     injection h2 with h3;
     exact absurd h3 (by decide))

/-- C3 (corrected). `save_historial` opens the history file with mode "w"
(truncating it in place) and then writes the serialization: a completed
save leaves exactly the serialized text, but the intermediate state is an
empty, unparsable file, so an interrupted save does not leave the previous
history intact and no atomic temp-file swap exists. -/
theorem save_historial_truncates_in_place (prev : FileState)
    (data : List JValue) (h : prev ≠ .file []) :
    save_historial_states prev data = [prev, .file [], .file (dumpTop data)]
    ∧ (save_historial_states prev data).getLast? = some (.file (dumpTop data))
    ∧ ¬ AtomicSave prev data := by
  refine ⟨rfl, rfl, ?_⟩
  intro ha
  have h2 := ha (.file []) (by simp [save_historial_states])
  rcases h2 with h2 | h2
  · exact h h2.symm
  · obtain ⟨c, cs, hc, -, -, -⟩ := dumpVal_cons 0 (.arr data)
    rw [show save_historial data = FileState.file (dumpTop data) from rfl] at h2
    injection h2 with h3
    rw [show dumpTop data = dumpVal 0 (JValue.arr data) from rfl, hc] at h3
    exact List.noConfusion h3

/-- C3 witness: the amended statement at the concrete prior state
"missing file" and data `[]`. -/
theorem save_historial_truncates_in_place_witness :
    save_historial_states .missing [] = [.missing, .file [], .file (dumpTop [])]
    ∧ (save_historial_states .missing []).getLast? = some (.file (dumpTop []))
    ∧ ¬ AtomicSave .missing [] :=
  save_historial_truncates_in_place .missing [] (fun h => FileState.noConfusion h)

/-! ## C2: a duplicate front date skips generation and leaves the file alone -/

/-- C2 (confirmed). When the front record of the history carries today's
date, a run skips: no new record, the model response is never consulted
(the result is the same for any response text), and the history file is
left exactly as it was, with the run ending in the successful skip state. -/
theorem generate_trivia_skips_duplicate_day (key fecha_hoy raw raw2 : String)
    (r : HistoryRecord) (rest : List HistoryRecord)
    (hf : r.fecha = fecha_hoy) :
    generate_trivia (some key) ((r :: rest).map encodeRecord) fecha_hoy raw
      = .skippedDuplicate
    ∧ run_main (some key) (save_historial ((r :: rest).map encodeRecord))
        fecha_hoy raw
      = (.skippedDuplicate, save_historial ((r :: rest).map encodeRecord))
    ∧ generate_trivia (some key) ((r :: rest).map encodeRecord) fecha_hoy raw
      = generate_trivia (some key) ((r :: rest).map encodeRecord) fecha_hoy raw2 := by
  have hskip : isDuplicateDay (encodeRecord r :: rest.map encodeRecord) fecha_hoy
      = .ok true := by
    rw [isDuplicateDay_encoded, hf]
    simp
  have hgen : ∀ raw' : String,
      generate_trivia (some key) ((r :: rest).map encodeRecord) fecha_hoy raw'
        = .skippedDuplicate := by
    intro raw'
    rw [show generate_trivia (some key) ((r :: rest).map encodeRecord) fecha_hoy raw'
        = (match diaNumber ((r :: rest).map encodeRecord) with
           | .error e => .pyCrash e
           | .ok _ =>
             match isDuplicateDay ((r :: rest).map encodeRecord) fecha_hoy with
             | .error e => .pyCrash e
             | .ok true => .skippedDuplicate
             | .ok false =>
               match get_previous_questions ((r :: rest).map encodeRecord) with
               | .error e => .pyCrash e
               | .ok _ =>
                 match parse_response raw' with
                 | .error .jsonError => .exitParseError .jsonError
                 | .error (.assertFail m) => .exitParseError (.assertFail m)
                 | .error e => .pyCrash e
                 | .ok new_data =>
                   match pyGetItem new_data kPreguntas with
                   | .error e => .pyCrash e
                   | .ok pr =>
                     match pyGetItem new_data kBurla with
                     | .error e => .pyCrash e
                     | .ok mb =>
                       .success (.obj [(kDia, .int ((r.dia : Int) + 1)),
                           (kFecha, .str fecha_hoy), (kPreguntas, pr),
                           (kBurla, mb)]
                         :: (r :: rest).map encodeRecord))
        from by rw [List.map_cons]; rfl]
    rw [List.map_cons, diaNumber_encoded, hskip]
  refine ⟨hgen raw, ?_, (hgen raw).trans (hgen raw2).symm⟩
  rw [show run_main (some key) (save_historial ((r :: rest).map encodeRecord))
        fecha_hoy raw
      = (match load_historial (save_historial ((r :: rest).map encodeRecord)) with
         | .error e =>
           (GenResult.pyCrash e, save_historial ((r :: rest).map encodeRecord))
         | .ok (.arr historial) =>
           (match generate_trivia (some key) historial fecha_hoy raw with
            | .success newHist => (GenResult.success newHist, save_historial newHist)
            | r' => (r', save_historial ((r :: rest).map encodeRecord)))
         | .ok _ =>
           (GenResult.pyCrash .typeError,
            save_historial ((r :: rest).map encodeRecord)))
      from rfl]
  rw [load_historial_save _ (wfJ_arr_encodeRecord (r :: rest))]
  dsimp only
  rw [hgen raw]

/-- C2 witness: a concrete one-record history dated today, with two
different response texts. -/
theorem generate_trivia_skips_duplicate_day_witness :
    generate_trivia (some "k") ((wRecHoy :: []).map encodeRecord) wHoy cGoodRaw
      = .skippedDuplicate
    ∧ run_main (some "k") (save_historial ((wRecHoy :: []).map encodeRecord))
        wHoy cGoodRaw
      = (.skippedDuplicate, save_historial ((wRecHoy :: []).map encodeRecord))
    ∧ generate_trivia (some "k") ((wRecHoy :: []).map encodeRecord) wHoy cGoodRaw
      = generate_trivia (some "k") ((wRecHoy :: []).map encodeRecord) wHoy "x" :=
  generate_trivia_skips_duplicate_day "k" wHoy cGoodRaw "x" wRecHoy [] rfl
